import Mathlib

/-!
# taBench `monitor.c`: the sampling-and-statistics engine

A shallow embedding of `sat_ndiff` and `calc_interval_stats` from `src/monitor.c`,
followed by the theorems that settle the properties claimed for them.

Conventions of the embedding.

* C integers are `Int` values reduced into their two's-complement range by `wrapS`.
  `int` is 32 bits wide, `long long` 64 bits, and the width of `long` (hence `LONG_MAX`,
  which comes from `<limits.h>`, not from the repository) is a field of `Platform`.
* C `double` values are the rationals that are representable with a 53-bit significand;
  every arithmetic operation is the exact operation followed by `fl`, rounding to nearest
  with ties to even.  The exponent range is not bounded: every magnitude the program can
  produce from `long` inputs lies far inside the binary64 range.
* A floating-point value converted to an integer type that cannot hold it has no defined
  result in C; the value the hardware delivers is the `cvtOor` field of `Platform`.
-/

namespace TaBench

/-! ## Machine integers -/

/-- The target platform: whether `long` has 64 bits (LP64) or 32 bits (ILP32), and the
value delivered by a floating-point to integer conversion whose operand is out of range
(arguments: width of the destination, operand truncated toward zero). -/
structure Platform where
  long64 : Bool
  cvtOor : Nat → Int → Int

/-- Two's-complement reduction of `x` into the signed range of a `w`-bit integer. -/
def wrapS (w : Nat) (x : Int) : Int :=
  (x + 2 ^ (w - 1)) % 2 ^ w - 2 ^ (w - 1)

/-- Width of `long` in bits. -/
def Platform.longBits (P : Platform) : Nat :=
  if P.long64 then 64 else 32

/-- The constant `LONG_MAX` of `<limits.h>`. -/
def LONG_MAX (P : Platform) : Int :=
  2 ^ (P.longBits - 1) - 1

/-- Reduction into the range of `long`. -/
def wrapLong (P : Platform) (x : Int) : Int :=
  wrapS P.longBits x

/-- Reduction into the range of `long long`. -/
def wrapLL (x : Int) : Int :=
  wrapS 64 x

/-- Reduction into the range of `int`. -/
def wrapInt (x : Int) : Int :=
  wrapS 32 x

/-- An LP64 platform with the x86-64 conversion: out-of-range operands give the most
negative integer. -/
def x86_64 : Platform :=
  { long64 := true, cvtOor := fun w _ => -(2 ^ (w - 1)) }

/-- An ILP32 platform with a saturating conversion (ARM VFP). -/
def arm32 : Platform :=
  { long64 := false, cvtOor := fun w t => if t < 0 then -(2 ^ (w - 1)) else 2 ^ (w - 1) - 1 }

/-! ## Timestamps and `sat_ndiff` -/

/-- The C `struct timespec`: both fields have type `long`. -/
structure Timespec where
  tv_sec : Int
  tv_nsec : Int
deriving DecidableEq

/-- The difference the C expression is meant to compute, over the integers. -/
def trueDiff (a b : Timespec) : Int :=
  (a.tv_sec - b.tv_sec) * 1000000000 + (a.tv_nsec - b.tv_nsec)

/-- The value of `ret` in `sat_ndiff`: the two subtractions are carried out in `long`,
the product and the sum in `long long`. -/
def sat_ndiff_ret (P : Platform) (a b : Timespec) : Int :=
  wrapLL (wrapLL (wrapLong P (a.tv_sec - b.tv_sec) * 1000000000)
    + wrapLong P (a.tv_nsec - b.tv_nsec))

/-- The function `sat_ndiff`: the returned `long`, and whether the overflow warning was
written to `stderr`. -/
def sat_ndiff (P : Platform) (a b : Timespec) : Int × Bool :=
  let ret := sat_ndiff_ret P a b
  if ret > LONG_MAX P then (LONG_MAX P, true) else (wrapLong P ret, false)

/-! ## Binary64 arithmetic -/

/-- Round to the nearest integer, ties to the even one. -/
def roundHalfEven (q : ℚ) : Int :=
  let f := ⌊q⌋
  if q - f < 1 / 2 then f
  else if 1 / 2 < q - f then f + 1
  else if f % 2 = 0 then f else f + 1

/-- Binary logarithm of a natural number, rounded down, by repeated halving (`fuel`
bounds the number of halvings). -/
def log2Aux : Nat → Nat → Nat
  | 0, _ => 0
  | fuel + 1, n => if 2 ≤ n then log2Aux fuel (n / 2) + 1 else 0

/-- Index of the leading one bit of `n`. -/
def nlog2 (n : Nat) : Nat := log2Aux n n

/-- The binary exponent of a non-zero rational: `2 ^ ilog2 q ≤ |q| < 2 ^ (ilog2 q + 1)`. -/
def ilog2 (q : ℚ) : Int :=
  let k : Int := (nlog2 q.num.natAbs : Int) - (nlog2 q.den : Int)
  if (2 : ℚ) ^ k ≤ |q| then k else k - 1

/-- Rounding of a positive exact result to a 53-bit significand: nearest value, ties to
even. -/
def flAbs (q : ℚ) : ℚ :=
  (roundHalfEven (q / (2 : ℚ) ^ (ilog2 q - 52)) : ℚ) * (2 : ℚ) ^ (ilog2 q - 52)

/-- Rounding of an exact result to binary64 (sign and magnitude): nearest representable
value, ties to even. -/
def fl (q : ℚ) : ℚ :=
  if q = 0 then 0 else if 0 < q then flAbs q else -flAbs (-q)

/-- The values representable in binary64 (exponent range apart): an integer significand
below `2^53` in magnitude times a power of two. -/
def IsRep (c : ℚ) : Prop :=
  ∃ m k : Int, |m| < 2 ^ 53 ∧ c = (m : ℚ) * (2 : ℚ) ^ k

/-- Double addition. -/
def dadd (a b : ℚ) : ℚ := fl (a + b)

/-- Double subtraction. -/
def dsub (a b : ℚ) : ℚ := fl (a - b)

/-- Double multiplication. -/
def dmul (a b : ℚ) : ℚ := fl (a * b)

/-- Double division (the program never divides by zero). -/
def ddiv (a b : ℚ) : ℚ := fl (a / b)

/-- Conversion of an integer (`int` or `long`) to `double`. -/
def i2d (x : Int) : ℚ := fl x

/-- Truncation toward zero. -/
def qtrunc (q : ℚ) : Int :=
  if 0 ≤ q then ⌊q⌋ else -⌊-q⌋

/-- The C library function `floor` on a double; the result is an integer-valued double. -/
def dfloor (q : ℚ) : Int := ⌊q⌋

/-- The C library function `ceill`. -/
def dceil (q : ℚ) : Int := -⌊-q⌋

/-- Conversion of a floating-point value to a signed integer type of `w` bits. -/
def cvtS (P : Platform) (w : Nat) (q : ℚ) : Int :=
  if -(2 ^ (w - 1)) ≤ qtrunc q ∧ qtrunc q < 2 ^ (w - 1) then qtrunc q
  else wrapS w (P.cvtOor w (qtrunc q))

/-- Conversion `double → int`. -/
def d2i (P : Platform) (q : ℚ) : Int := cvtS P 32 q

/-- Conversion `long double → long`. -/
def d2l (P : Platform) (q : ℚ) : Int := cvtS P P.longBits q

/-- The C library function `abs` on `int`. -/
def iabs (x : Int) : Int := wrapInt |x|

/-! ## `calc_interval_stats` -/

/-- Number of histogram bins. -/
def HIST_BINS : Nat := 4000

/-- Rounding unit of the plotting range. -/
def XRANGE_MARGIN : Int := 10

/-- The C `struct interval_stat`. -/
structure interval_stat where
  mean_us : ℚ
  s2 : ℚ
  min : Int
  min_pos : Int
  max : Int
  max_pos : Int
  bin_granularity : Int
  xrange : Int

/-- The intervals `d_i = sat_ndiff(&data[i], &data[i-1])` for `i = 1 .. n_samples - 1`,
in index order. -/
def intervals (P : Platform) : List Timespec → List Int
  | [] => []
  | [_] => []
  | a :: b :: rest => (sat_ndiff P b a).1 :: intervals P (b :: rest)

/-- The local variables the first loop of `calc_interval_stats` updates. -/
structure Pass1 where
  s : ℚ
  ssq : ℚ
  min : Int
  max : Int
  min_pos : Int
  max_pos : Int

/-- Their initial values. -/
def pass1_init (P : Platform) : Pass1 :=
  { s := 0, ssq := 0, min := LONG_MAX P, max := 0, min_pos := 0, max_pos := 0 }

/-- The body of the first loop for index `i` and interval `d`. -/
def pass1_step (i d : Int) (st : Pass1) : Pass1 :=
  { s := dadd st.s (i2d d)
    ssq := dadd st.ssq (dmul (i2d d) (i2d d))
    min := if d < st.min then d else st.min
    max := if d > st.max then d else st.max
    min_pos := if d < st.min then i else st.min_pos
    max_pos := if d > st.max then i else st.max_pos }

/-- The first loop, from index `i` on. -/
def pass1_loop : Int → List Int → Pass1 → Pass1
  | _, [], st => st
  | i, d :: ds, st => pass1_loop (i + 1) ds (pass1_step i d st)

/-- The value of `range` after lines 199-201: both operands of the maximum went through
`abs`, whose parameter has type `int`. -/
def bin_range (P : Platform) (mn mx : Int) (mean : ℚ) : Int :=
  if iabs (d2i P (dsub (i2d mx) mean)) > iabs (d2i P (dsub (i2d mn) mean))
  then iabs (d2i P (dsub (i2d mx) mean))
  else iabs (d2i P (dsub (i2d mn) mean))

/-- The bin width chosen in lines 202-207; `2000` is `HIST_BINS / 2`. -/
def bin_width (P : Platform) (range : Int) : Int :=
  if range ≤ 2000 then 1
  else d2l P (dceil (ddiv (i2d range) (i2d 2000)))

/-- The quotient `((double) d - mean_us) / (double) bin_granularity` of pass 2. -/
def bin_quot (mean : ℚ) (g d : Int) : ℚ :=
  ddiv (dsub (i2d d) mean) (i2d g)

/-- The value of `bin` before the clamp (lines 211-215); `2000` is `HIST_BINS / 2` and
`1 / 2` the literal `0.5`. -/
def bin_raw (P : Platform) (mean : ℚ) (g d : Int) : Int :=
  wrapInt (d2i P (dfloor (dadd (bin_quot mean g d) (1 / 2))) + 2000)

/-- The clamp of lines 216-219; `4000` is `HIST_BINS`. -/
def clamp_bin (bin : Int) : Int :=
  if bin < 0 then 0 else if bin ≥ 4000 then 3999 else bin

/-- The index of the bin that pass 2 increments for interval `d`. -/
def bin_index (P : Platform) (mean : ℚ) (g d : Int) : Nat :=
  (clamp_bin (bin_raw P mean g d)).toNat

/-- The statement `hist[bin]++`. -/
def hist_incr (P : Platform) (hist : Nat → Int) (bin : Nat) : Nat → Int :=
  Function.update hist bin (wrapLong P (hist bin + 1))

/-- The second loop (lines 209-222). -/
def pass2_loop (P : Platform) (mean : ℚ) (g : Int) : List Int → (Nat → Int) → (Nat → Int)
  | [], hist => hist
  | d :: ds, hist => pass2_loop P mean g ds (hist_incr P hist (bin_index P mean g d))

/-- The third loop (lines 224-231): the largest distance from the centre bin over the
non-empty bins among the first `n`, starting from `xrange = 0`.  The C comparison
`dist > xrange` is made in `unsigned long`; `xrange` is never negative here, so it is
the comparison of the integers. -/
def maxdist_upto (hist : Nat → Int) : Nat → Int
  | 0 => 0
  | i + 1 =>
    if hist i ≠ 0 ∧ iabs ((i : Int) - 2000) > maxdist_upto hist i
    then iabs ((i : Int) - 2000) else maxdist_upto hist i

/-- The value of `xrange` when the third loop ends. -/
def maxdist (hist : Nat → Int) : Int :=
  maxdist_upto hist HIST_BINS

/-- Lines 232-234: scaling by the bin width and rounding up to the margin. -/
def xrange_of (P : Platform) (md g : Int) : Int :=
  wrapLong P (wrapLong P ((wrapLong P (md * g)).tdiv XRANGE_MARGIN + 1) * XRANGE_MARGIN)

/-- The function `calc_interval_stats`: `data` with `n_samples = data.length`, the
histogram and the `interval_stat` on entry; returns both on exit. -/
def calc_interval_stats (P : Platform) (data : List Timespec) (hist : Nat → Int)
    (is0 : interval_stat) : interval_stat × (Nat → Int) :=
  let p := pass1_loop 1 (intervals P data) (pass1_init P)
  let n_int := i2d data.length
  let mean := if n_int ≠ 0 then ddiv p.s n_int else is0.mean_us
  let s2 :=
    if n_int > 1 then ddiv (dsub p.ssq (dmul n_int (dmul mean mean))) (dsub n_int (i2d 1))
    else is0.s2
  let g := bin_width P (bin_range P p.min p.max mean)
  let hist1 := pass2_loop P mean g (intervals P data) hist
  ({ mean_us := mean, s2 := s2, min := p.min, min_pos := p.min_pos, max := p.max,
     max_pos := p.max_pos, bin_granularity := g, xrange := xrange_of P (maxdist hist1) g },
   hist1)

/-- The histogram as `main` leaves it before sampling: all bins zero. -/
def zeroHist : Nat → Int := fun _ => 0

/-- The static `struct interval_stat is` before the call: zero-initialised. -/
def zeroStat : interval_stat :=
  { mean_us := 0, s2 := 0, min := 0, min_pos := 0, max := 0, max_pos := 0,
    bin_granularity := 0, xrange := 0 }

/-- A timestamp of `n` nanoseconds after the clock origin (`n < 10^9`). -/
def ns (n : Int) : Timespec := { tv_sec := 0, tv_nsec := n }

/-- How many of the intervals `ds` pass 2 puts into bin `i`. -/
def bin_count (P : Platform) (mean : ℚ) (g : Int) (ds : List Int) (i : Nat) : Nat :=
  ds.countP (fun d => decide (bin_index P mean g d = i))

/-! ## The specification's wording of two steps -/

/-- The bin width as the specification states it: `range` is the exact maximum of
`|min - mean|` and `|max - mean|`, and the width is `1` up to `HIST_BINS / 2` and
`ceil (range / (HIST_BINS / 2))` above. -/
def spec_granularity (mn mx : Int) (mean : ℚ) : Int :=
  if max |(mn : ℚ) - mean| |(mx : ℚ) - mean| ≤ 2000 then 1
  else -⌊-(max |(mn : ℚ) - mean| |(mx : ℚ) - mean| / 2000)⌋

/-! ## Rounding lemmas -/

theorem roundHalfEven_intCast (n : Int) : roundHalfEven (n : ℚ) = n := by
  simp [roundHalfEven]

theorem roundHalfEven_cases (q : ℚ) : roundHalfEven q = ⌊q⌋ ∨ roundHalfEven q = ⌊q⌋ + 1 := by
  unfold roundHalfEven
  simp only
  split_ifs <;> simp

theorem roundHalfEven_mono {q r : ℚ} (h : q ≤ r) : roundHalfEven q ≤ roundHalfEven r := by
  have hf : ⌊q⌋ ≤ ⌊r⌋ := Int.floor_mono h
  rcases lt_or_eq_of_le hf with hlt | heq
  · rcases roundHalfEven_cases q with h1 | h1 <;> rcases roundHalfEven_cases r with h2 | h2 <;>
      omega
  · unfold roundHalfEven
    simp only
    rw [← heq]
    have hqr : q - ⌊q⌋ ≤ r - ⌊q⌋ := by linarith
    split_ifs <;> first | omega | linarith

theorem log2Aux_eq (fuel : Nat) : ∀ n : Nat, n ≤ fuel → log2Aux fuel n = Nat.log2 n := by
  induction fuel with
  | zero =>
    intro n hn
    have : n = 0 := by omega
    subst this
    simp [log2Aux, Nat.log2_zero]
  | succ f ih =>
    intro n hn
    rw [log2Aux, Nat.log2]
    by_cases h : 2 ≤ n
    · simp only [h, if_true, ge_iff_le]
      rw [ih (n / 2) (by omega)]
    · simp [h]

theorem nlog2_eq (n : Nat) : nlog2 n = Nat.log2 n :=
  log2Aux_eq n n (le_refl n)

theorem ilog2_spec {q : ℚ} (hq : 0 < q) :
    (2 : ℚ) ^ ilog2 q ≤ q ∧ q < (2 : ℚ) ^ (ilog2 q + 1) := by
  unfold ilog2
  rw [nlog2_eq, nlog2_eq]
  simp only [abs_of_pos hq]
  have hnum : 0 < q.num := Rat.num_pos.mpr hq
  have ha0 : q.num.natAbs ≠ 0 := by omega
  have hb0 : q.den ≠ 0 := q.den_nz
  have ha1 := Nat.log2_self_le ha0
  have ha2 := @Nat.lt_log2_self q.num.natAbs
  have hb1 := Nat.log2_self_le hb0
  have hb2 := @Nat.lt_log2_self q.den
  have hqa : q = (q.num.natAbs : ℚ) / (q.den : ℚ) := by
    conv_lhs => rw [← Rat.num_div_den q]
    congr 1
    have h1 : ((q.num.natAbs : Int) : ℚ) = (q.num : ℚ) := by
      rw [Int.natAbs_of_nonneg hnum.le]
    rw [← h1, Int.cast_natCast]
  have hbpos : (0 : ℚ) < (q.den : ℚ) := by exact_mod_cast q.den_pos
  have ha1q : (2 : ℚ) ^ (q.num.natAbs.log2) ≤ (q.num.natAbs : ℚ) := by exact_mod_cast ha1
  have ha2q : (q.num.natAbs : ℚ) < (2 : ℚ) ^ (q.num.natAbs.log2 + 1) := by exact_mod_cast ha2
  have hb1q : (2 : ℚ) ^ (q.den.log2) ≤ (q.den : ℚ) := by exact_mod_cast hb1
  have hb2q : (q.den : ℚ) < (2 : ℚ) ^ (q.den.log2 + 1) := by exact_mod_cast hb2
  generalize q.num.natAbs.log2 = la at *
  generalize q.den.log2 = lb at *
  generalize (q.num.natAbs : ℚ) = a at *
  generalize (q.den : ℚ) = b at *
  have h2 : (2 : ℚ) ≠ 0 := by norm_num
  have hk1 : (2 : ℚ) ^ ((la : Int) - (lb : Int) + 1) * (2 : ℚ) ^ lb = (2 : ℚ) ^ (la + 1) := by
    rw [← zpow_natCast, ← zpow_natCast, ← zpow_add₀ h2]
    congr 1
    push_cast
    ring
  have hk2 : (2 : ℚ) ^ ((la : Int) - (lb : Int) - 1) * (2 : ℚ) ^ (lb + 1) = (2 : ℚ) ^ la := by
    rw [← zpow_natCast, ← zpow_natCast, ← zpow_add₀ h2]
    congr 1
    push_cast
    ring
  have hup : q < (2 : ℚ) ^ ((la : Int) - (lb : Int) + 1) := by
    rw [hqa, div_lt_iff₀ hbpos]
    calc a < (2 : ℚ) ^ (la + 1) := ha2q
      _ = (2 : ℚ) ^ ((la : Int) - (lb : Int) + 1) * (2 : ℚ) ^ lb := hk1.symm
      _ ≤ (2 : ℚ) ^ ((la : Int) - (lb : Int) + 1) * b :=
          mul_le_mul_of_nonneg_left hb1q (by positivity)
  have hlo : (2 : ℚ) ^ ((la : Int) - (lb : Int) - 1) ≤ q := by
    rw [hqa, le_div_iff₀ hbpos]
    calc (2 : ℚ) ^ ((la : Int) - (lb : Int) - 1) * b
        ≤ (2 : ℚ) ^ ((la : Int) - (lb : Int) - 1) * (2 : ℚ) ^ (lb + 1) :=
          mul_le_mul_of_nonneg_left hb2q.le (by positivity)
      _ = (2 : ℚ) ^ la := hk2
      _ ≤ a := ha1q
  split_ifs with hc
  · exact ⟨hc, hup⟩
  · refine ⟨hlo, ?_⟩
    rw [sub_add_cancel]
    exact lt_of_not_le hc

theorem two_zpow_pos (k : Int) : (0 : ℚ) < (2 : ℚ) ^ k :=
  zpow_pos (by norm_num) k

theorem ilog2_unique {q : ℚ} (hq : 0 < q) {e : Int} (h1 : (2 : ℚ) ^ e ≤ q)
    (h2 : q < (2 : ℚ) ^ (e + 1)) : ilog2 q = e := by
  obtain ⟨s1, s2⟩ := ilog2_spec hq
  have a1 : ilog2 q < e + 1 :=
    (zpow_lt_zpow_iff_right₀ (by norm_num : (1 : ℚ) < 2)).mp (lt_of_le_of_lt s1 h2)
  have a2 : e < ilog2 q + 1 :=
    (zpow_lt_zpow_iff_right₀ (by norm_num : (1 : ℚ) < 2)).mp (lt_of_le_of_lt h1 s2)
  omega

theorem ilog2_mono {q r : ℚ} (hq : 0 < q) (h : q ≤ r) : ilog2 q ≤ ilog2 r := by
  obtain ⟨s1, _⟩ := ilog2_spec hq
  obtain ⟨_, t2⟩ := ilog2_spec (lt_of_lt_of_le hq h)
  have a1 : ilog2 q < ilog2 r + 1 :=
    (zpow_lt_zpow_iff_right₀ (by norm_num : (1 : ℚ) < 2)).mp
      (lt_of_le_of_lt (le_trans s1 h) t2)
  omega

/-- The scaled operand of the rounding lies in `[2^52, 2^53)`. -/
theorem scaled_bounds {q : ℚ} (hq : 0 < q) :
    ((2 ^ 52 : Int) : ℚ) ≤ q / (2 : ℚ) ^ (ilog2 q - 52) ∧
    q / (2 : ℚ) ^ (ilog2 q - 52) ≤ ((2 ^ 53 : Int) : ℚ) := by
  obtain ⟨s1, s2⟩ := ilog2_spec hq
  have hu := two_zpow_pos (ilog2 q - 52)
  have h2 : (2 : ℚ) ≠ 0 := by norm_num
  have e1 : ((2 ^ 52 : Int) : ℚ) * (2 : ℚ) ^ (ilog2 q - 52) = (2 : ℚ) ^ ilog2 q := by
    have : ((2 ^ 52 : Int) : ℚ) = (2 : ℚ) ^ (52 : Int) := by norm_num
    rw [this, ← zpow_add₀ h2]
    congr 1
    ring
  have e2 : ((2 ^ 53 : Int) : ℚ) * (2 : ℚ) ^ (ilog2 q - 52) = (2 : ℚ) ^ (ilog2 q + 1) := by
    have : ((2 ^ 53 : Int) : ℚ) = (2 : ℚ) ^ (53 : Int) := by norm_num
    rw [this, ← zpow_add₀ h2]
    congr 1
    ring
  constructor
  · rw [le_div_iff₀ hu, e1]
    exact s1
  · rw [div_le_iff₀ hu, e2]
    exact s2.le

theorem flAbs_bounds {q : ℚ} (hq : 0 < q) :
    (2 : ℚ) ^ ilog2 q ≤ flAbs q ∧ flAbs q ≤ (2 : ℚ) ^ (ilog2 q + 1) := by
  obtain ⟨b1, b2⟩ := scaled_bounds hq
  have hu := two_zpow_pos (ilog2 q - 52)
  have h2 : (2 : ℚ) ≠ 0 := by norm_num
  have r1 : (2 ^ 52 : Int) ≤ roundHalfEven (q / (2 : ℚ) ^ (ilog2 q - 52)) := by
    have := roundHalfEven_mono b1
    rwa [roundHalfEven_intCast] at this
  have r2 : roundHalfEven (q / (2 : ℚ) ^ (ilog2 q - 52)) ≤ (2 ^ 53 : Int) := by
    have := roundHalfEven_mono b2
    rwa [roundHalfEven_intCast] at this
  have e1 : ((2 ^ 52 : Int) : ℚ) * (2 : ℚ) ^ (ilog2 q - 52) = (2 : ℚ) ^ ilog2 q := by
    have : ((2 ^ 52 : Int) : ℚ) = (2 : ℚ) ^ (52 : Int) := by norm_num
    rw [this, ← zpow_add₀ h2]
    congr 1
    ring
  have e2 : ((2 ^ 53 : Int) : ℚ) * (2 : ℚ) ^ (ilog2 q - 52) = (2 : ℚ) ^ (ilog2 q + 1) := by
    have : ((2 ^ 53 : Int) : ℚ) = (2 : ℚ) ^ (53 : Int) := by norm_num
    rw [this, ← zpow_add₀ h2]
    congr 1
    ring
  unfold flAbs
  constructor
  · rw [← e1]
    exact mul_le_mul_of_nonneg_right (by exact_mod_cast r1) hu.le
  · rw [← e2]
    exact mul_le_mul_of_nonneg_right (by exact_mod_cast r2) hu.le

theorem flAbs_pos {q : ℚ} (hq : 0 < q) : 0 < flAbs q :=
  lt_of_lt_of_le (two_zpow_pos _) (flAbs_bounds hq).1

theorem flAbs_mono {q r : ℚ} (hq : 0 < q) (h : q ≤ r) : flAbs q ≤ flAbs r := by
  have hr : 0 < r := lt_of_lt_of_le hq h
  rcases lt_or_eq_of_le (ilog2_mono hq h) with hlt | heq
  · calc flAbs q ≤ (2 : ℚ) ^ (ilog2 q + 1) := (flAbs_bounds hq).2
      _ ≤ (2 : ℚ) ^ ilog2 r := zpow_le_zpow_right₀ (by norm_num) (by omega)
      _ ≤ flAbs r := (flAbs_bounds hr).1
  · unfold flAbs
    rw [heq]
    have hu := two_zpow_pos (ilog2 r - 52)
    apply mul_le_mul_of_nonneg_right _ hu.le
    have : q / (2 : ℚ) ^ (ilog2 r - 52) ≤ r / (2 : ℚ) ^ (ilog2 r - 52) :=
      div_le_div_of_nonneg_right h hu.le
    exact_mod_cast roundHalfEven_mono this

theorem fl_zero : fl 0 = 0 := by simp [fl]

theorem fl_of_pos {q : ℚ} (hq : 0 < q) : fl q = flAbs q := by
  simp [fl, hq, hq.ne']

theorem fl_of_neg {q : ℚ} (hq : q < 0) : fl q = -flAbs (-q) := by
  simp [fl, hq.ne, not_lt.mpr hq.le]

theorem fl_neg (q : ℚ) : fl (-q) = -fl q := by
  rcases lt_trichotomy q 0 with h | h | h
  · rw [fl_of_neg h, fl_of_pos (by linarith : 0 < -q), neg_neg]
  · subst h
    simp [fl_zero]
  · rw [fl_of_pos h, fl_of_neg (by linarith : -q < 0), neg_neg]

theorem fl_pos {q : ℚ} (hq : 0 < q) : 0 < fl q := by
  rw [fl_of_pos hq]
  exact flAbs_pos hq

theorem fl_nonneg {q : ℚ} (hq : 0 ≤ q) : 0 ≤ fl q := by
  rcases eq_or_lt_of_le hq with h | h
  · rw [← h, fl_zero]
  · exact (fl_pos h).le

/-- Rounding to binary64 is monotone. -/
theorem fl_mono {q r : ℚ} (h : q ≤ r) : fl q ≤ fl r := by
  rcases lt_trichotomy q 0 with hq | hq | hq
  · rcases lt_or_le r 0 with hr | hr
    · rw [fl_of_neg hq, fl_of_neg hr]
      exact neg_le_neg (flAbs_mono (by linarith) (by linarith))
    · rw [fl_of_neg hq]
      have := flAbs_pos (by linarith : 0 < -q)
      have := fl_nonneg hr
      linarith
  · subst hq
    rw [fl_zero]
    exact fl_nonneg h
  · rw [fl_of_pos hq, fl_of_pos (lt_of_lt_of_le hq h)]
    exact flAbs_mono hq h

theorem flAbs_exact {c : ℚ} (hc : 0 < c) (m k : Int) (hm : m < 2 ^ 53)
    (hck : c = (m : ℚ) * (2 : ℚ) ^ k) : flAbs c = c := by
  obtain ⟨s1, _⟩ := ilog2_spec hc
  have h2 : (2 : ℚ) ≠ 0 := by norm_num
  have hmq : (m : ℚ) < (2 : ℚ) ^ (53 : Int) := by
    have : ((2 ^ 53 : Int) : ℚ) = (2 : ℚ) ^ (53 : Int) := by norm_num
    rw [← this]
    exact_mod_cast hm
  unfold flAbs
  generalize ilog2 c = e at s1 ⊢
  have hlt : (2 : ℚ) ^ e < (2 : ℚ) ^ (53 + k) := by
    calc (2 : ℚ) ^ e ≤ c := s1
      _ = (m : ℚ) * (2 : ℚ) ^ k := hck
      _ < (2 : ℚ) ^ (53 : Int) * (2 : ℚ) ^ k :=
          mul_lt_mul_of_pos_right hmq (two_zpow_pos k)
      _ = (2 : ℚ) ^ (53 + k) := (zpow_add₀ h2 _ _).symm
  have hek : e < 53 + k := (zpow_lt_zpow_iff_right₀ (by norm_num : (1 : ℚ) < 2)).mp hlt
  obtain ⟨j, hj⟩ : ∃ j : Nat, k = e - 52 + (j : Int) :=
    ⟨(k - (e - 52)).toNat, by omega⟩
  have hdiv : c / (2 : ℚ) ^ (e - 52) = ((m * 2 ^ j : Int) : ℚ) := by
    rw [div_eq_iff (two_zpow_pos _).ne', hck, hj, zpow_add₀ h2, zpow_natCast]
    push_cast
    ring
  rw [hdiv, roundHalfEven_intCast, ← hdiv, div_mul_cancel₀ _ (two_zpow_pos _).ne']

/-- Representable values are not changed by rounding. -/
theorem fl_exact {c : ℚ} (h : IsRep c) : fl c = c := by
  obtain ⟨m, k, hm, hck⟩ := h
  have hk := two_zpow_pos k
  rcases lt_trichotomy c 0 with hc | hc | hc
  · rw [fl_of_neg hc]
    have hm0 : m < 0 := by
      by_contra hcon
      have : (0 : ℚ) ≤ (m : ℚ) := by exact_mod_cast not_lt.mp hcon
      have := mul_nonneg this hk.le
      linarith
    rw [flAbs_exact (by linarith : 0 < -c) (-m) k (by rw [abs_of_neg hm0] at hm; omega)
      (by rw [hck]; push_cast; ring)]
    ring
  · rw [hc, fl_zero]
  · rw [fl_of_pos hc]
    exact flAbs_exact hc m k (lt_of_le_of_lt (le_abs_self m) hm) hck

theorem isRep_intCast (n : Int) (h : |n| < 2 ^ 53) : IsRep (n : ℚ) :=
  ⟨n, 0, h, by simp⟩

theorem fl_intCast (n : Int) (h : |n| < 2 ^ 53) : fl (n : ℚ) = n :=
  fl_exact (isRep_intCast n h)

/-- Half-integers of moderate size are representable. -/
theorem isRep_half (n : Int) (h : |n| < 2 ^ 53) : IsRep ((n : ℚ) / 2) :=
  ⟨n, -1, h, by rw [zpow_neg_one]; ring⟩

theorem isRep_fl (q : ℚ) : IsRep (fl q) := by
  have key : ∀ r : ℚ, 0 < r → IsRep (flAbs r) := by
    intro r hr
    obtain ⟨b1, b2⟩ := scaled_bounds hr
    have r1 : (2 ^ 52 : Int) ≤ roundHalfEven (r / (2 : ℚ) ^ (ilog2 r - 52)) := by
      have := roundHalfEven_mono b1
      rwa [roundHalfEven_intCast] at this
    have r2 : roundHalfEven (r / (2 : ℚ) ^ (ilog2 r - 52)) ≤ (2 ^ 53 : Int) := by
      have := roundHalfEven_mono b2
      rwa [roundHalfEven_intCast] at this
    rcases lt_or_eq_of_le r2 with hlt | heq
    · exact ⟨roundHalfEven (r / (2 : ℚ) ^ (ilog2 r - 52)), ilog2 r - 52,
        by rw [abs_of_nonneg (by omega)]; exact hlt, rfl⟩
    · refine ⟨1, ilog2 r + 1, by norm_num, ?_⟩
      unfold flAbs
      rw [heq]
      have h2 : (2 : ℚ) ≠ 0 := by norm_num
      have : ((2 ^ 53 : Int) : ℚ) = (2 : ℚ) ^ (53 : Int) := by norm_num
      rw [this, ← zpow_add₀ h2]
      simp only [Int.cast_one, one_mul]
      congr 1
      ring
  rcases lt_trichotomy q 0 with hq | hq | hq
  · rw [fl_of_neg hq]
    obtain ⟨m, k, hm, hmk⟩ := key (-q) (by linarith)
    exact ⟨-m, k, by rwa [abs_neg], by rw [hmk]; push_cast; ring⟩
  · rw [hq, fl_zero]
    exact ⟨0, 0, by norm_num, by simp⟩
  · rw [fl_of_pos hq]
    exact key q hq

theorem fl_idem (q : ℚ) : fl (fl q) = fl q :=
  fl_exact (isRep_fl q)

theorem fl_le_of_le {q c : ℚ} (hc : IsRep c) (h : q ≤ c) : fl q ≤ c := by
  have := fl_mono h
  rwa [fl_exact hc] at this

theorem le_fl_of_le {q c : ℚ} (hc : IsRep c) (h : c ≤ q) : c ≤ fl q := by
  have := fl_mono h
  rwa [fl_exact hc] at this

/-! ## Machine-integer lemmas -/

theorem longBits_cases (P : Platform) : P.longBits = 32 ∨ P.longBits = 64 := by
  unfold Platform.longBits
  cases P.long64 <;> simp

theorem wrapS32_eq (x : Int) (h1 : -2147483648 ≤ x) (h2 : x < 2147483648) :
    wrapS 32 x = x := by
  simp only [wrapS]
  norm_num
  omega

theorem wrapS64_eq (x : Int) (h1 : -9223372036854775808 ≤ x)
    (h2 : x < 9223372036854775808) : wrapS 64 x = x := by
  simp only [wrapS]
  norm_num
  omega

theorem wrapS32_bounds (x : Int) : -2147483648 ≤ wrapS 32 x ∧ wrapS 32 x < 2147483648 := by
  simp only [wrapS]
  norm_num
  omega

theorem wrapS64_bounds (x : Int) :
    -9223372036854775808 ≤ wrapS 64 x ∧ wrapS 64 x < 9223372036854775808 := by
  simp only [wrapS]
  norm_num
  omega

theorem LONG_MAX_ge (P : Platform) : 2147483647 ≤ LONG_MAX P := by
  unfold LONG_MAX
  rcases longBits_cases P with h | h <;> rw [h] <;> norm_num

theorem wrapLong_eq (P : Platform) (x : Int) (h1 : -2147483648 ≤ x) (h2 : x < 2147483648) :
    wrapLong P x = x := by
  unfold wrapLong
  rcases longBits_cases P with h | h <;> rw [h]
  · exact wrapS32_eq x h1 h2
  · exact wrapS64_eq x (by omega) (by omega)

theorem wrapLong_eq_of_le (P : Platform) (x : Int) (h1 : 0 ≤ x) (h2 : x ≤ LONG_MAX P) :
    wrapLong P x = x := by
  unfold wrapLong
  unfold LONG_MAX at h2
  rcases longBits_cases P with h | h <;> rw [h] at h2 ⊢
  · exact wrapS32_eq x (by omega) (by norm_num at h2; omega)
  · exact wrapS64_eq x (by omega) (by norm_num at h2; omega)

/-! ## `sat_ndiff` -/

/-- With a 64-bit `long` the test `ret > (long long) LONG_MAX` is never true: the
function never saturates and never warns. -/
theorem sat_ndiff_long64_never_warns (P : Platform) (h : P.long64 = true)
    (a b : Timespec) : (sat_ndiff P a b).2 = false := by
  have hb := wrapS64_bounds (wrapS 64 (wrapLong P (a.tv_sec - b.tv_sec) * 1000000000)
    + wrapLong P (a.tv_nsec - b.tv_nsec))
  have hm : LONG_MAX P = 9223372036854775807 := by
    simp [LONG_MAX, Platform.longBits, h]
  have hle : ¬ sat_ndiff_ret P a b > LONG_MAX P := by
    rw [hm]
    unfold sat_ndiff_ret wrapLL
    omega
  simp [sat_ndiff, hle]

/-- With a 32-bit `long` and normalised, non-negative timestamps, `ret` is the exact
difference. -/
theorem sat_ndiff_ret_ilp32 (P : Platform) (h : P.long64 = false) (a b : Timespec)
    (ha : 0 ≤ a.tv_sec ∧ a.tv_sec < 2147483648) (hb : 0 ≤ b.tv_sec ∧ b.tv_sec < 2147483648)
    (han : 0 ≤ a.tv_nsec ∧ a.tv_nsec < 1000000000)
    (hbn : 0 ≤ b.tv_nsec ∧ b.tv_nsec < 1000000000) :
    sat_ndiff_ret P a b = trueDiff a b := by
  have hl : P.longBits = 32 := by simp [Platform.longBits, h]
  unfold sat_ndiff_ret trueDiff wrapLL wrapLong
  rw [hl, wrapS32_eq (a.tv_sec - b.tv_sec) (by omega) (by omega),
    wrapS32_eq (a.tv_nsec - b.tv_nsec) (by omega) (by omega),
    wrapS64_eq ((a.tv_sec - b.tv_sec) * 1000000000) (by omega) (by omega),
    wrapS64_eq _ (by omega) (by omega)]

/-- With a 32-bit `long` and normalised, non-negative timestamps, a difference above
`LONG_MAX` is returned as `LONG_MAX`, with the warning. -/
theorem sat_ndiff_ilp32_saturates (P : Platform) (h : P.long64 = false) (a b : Timespec)
    (ha : 0 ≤ a.tv_sec ∧ a.tv_sec < 2147483648) (hb : 0 ≤ b.tv_sec ∧ b.tv_sec < 2147483648)
    (han : 0 ≤ a.tv_nsec ∧ a.tv_nsec < 1000000000)
    (hbn : 0 ≤ b.tv_nsec ∧ b.tv_nsec < 1000000000)
    (hd : LONG_MAX P < trueDiff a b) :
    sat_ndiff P a b = (LONG_MAX P, true) := by
  have hr := sat_ndiff_ret_ilp32 P h a b ha hb han hbn
  simp [sat_ndiff, hr, hd]

/-- An instance: three seconds apart on a 32-bit platform. -/
theorem sat_ndiff_ilp32_saturates_witness :
    sat_ndiff arm32 ⟨3, 0⟩ ⟨0, 0⟩ = (LONG_MAX arm32, true) :=
  sat_ndiff_ilp32_saturates arm32 rfl ⟨3, 0⟩ ⟨0, 0⟩ (by decide) (by decide) (by decide)
    (by decide) (by decide)

/-- C2, at the failing input: on an LP64 platform the timestamps `{10^10 s, 0 ns}` and
`{0 s, 0 ns}` have a true difference of `10^19 ns`, above `LONG_MAX`; `sat_ndiff` returns
the wrapped, negative value `-8446744073709551616` and emits no warning. -/
theorem sat_ndiff_lp64_wraps :
    LONG_MAX x86_64 < trueDiff ⟨10000000000, 0⟩ ⟨0, 0⟩ ∧
    sat_ndiff x86_64 ⟨10000000000, 0⟩ ⟨0, 0⟩ = (-8446744073709551616, false) := by
  decide

/-! ## The engine at concrete series -/

/-- C3, at the failing input: for the three timestamps 0, 3, 6 ns (constant spacing
`D = 3`) the two intervals are both 3, yet the stored mean is `6 / 3 = 2`, the interval
sum divided by the number of samples, and the stored variance is 3. -/
theorem mean_divides_by_sample_count :
    intervals x86_64 [ns 0, ns 3, ns 6] = [3, 3] ∧
    (calc_interval_stats x86_64 [ns 0, ns 3, ns 6] zeroHist zeroStat).1.mean_us = 2 ∧
    (calc_interval_stats x86_64 [ns 0, ns 3, ns 6] zeroHist zeroStat).1.s2 = 3 := by
  decide!

/-- C4, at the failing input: for the timestamps 0, 3, 6 ns and a zero histogram the
centre bin 2000 stays empty and both intervals are counted in bin 2001. -/
theorem constant_spacing_off_centre :
    (calc_interval_stats x86_64 [ns 0, ns 3, ns 6] zeroHist zeroStat).2 2000 = 0 ∧
    (calc_interval_stats x86_64 [ns 0, ns 3, ns 6] zeroHist zeroStat).2 2001 = 2 := by
  decide!

/-- C5 fails as stated: a second run on the timestamps 0, 3, 6 ns, started from the
histogram and the statistics of the first run, leaves 4 in bin 2001 where the first run
left 2. -/
theorem second_run_changes_histogram :
    (calc_interval_stats x86_64 [ns 0, ns 3, ns 6] zeroHist zeroStat).2 2001 = 2 ∧
    (calc_interval_stats x86_64 [ns 0, ns 3, ns 6]
      (calc_interval_stats x86_64 [ns 0, ns 3, ns 6] zeroHist zeroStat).2
      (calc_interval_stats x86_64 [ns 0, ns 3, ns 6] zeroHist zeroStat).1).2 2001 = 4 := by
  decide!

/-- C6 fails as stated: for the timestamps 0, 4001 ns the stored min and max are 4001
and the stored mean is 2000.5, so the exact range is 2000.5, above 2000, and the
specification's width is 2; the stored width is 1. -/
theorem granularity_range_is_truncated :
    (calc_interval_stats x86_64 [ns 0, ns 4001] zeroHist zeroStat).1.min = 4001 ∧
    (calc_interval_stats x86_64 [ns 0, ns 4001] zeroHist zeroStat).1.max = 4001 ∧
    (calc_interval_stats x86_64 [ns 0, ns 4001] zeroHist zeroStat).1.mean_us = 4001 / 2 ∧
    spec_granularity 4001 4001 (4001 / 2) = 2 ∧
    (calc_interval_stats x86_64 [ns 0, ns 4001] zeroHist zeroStat).1.bin_granularity = 1 := by
  decide!

/-- C7 fails as stated: for the timestamps 0, 4000 ns the only interval is 4000, the
width is 1 and the index before the clamp is 4000, outside `[0, 3999]`; the clamp moves
it to bin 3999. -/
theorem index_can_leave_bin_budget :
    intervals x86_64 [ns 0, ns 4000] = [4000] ∧
    bin_raw x86_64
      (calc_interval_stats x86_64 [ns 0, ns 4000] zeroHist zeroStat).1.mean_us
      (calc_interval_stats x86_64 [ns 0, ns 4000] zeroHist zeroStat).1.bin_granularity
      4000 = 4000 ∧
    clamp_bin 4000 = 3999 ∧
    (calc_interval_stats x86_64 [ns 0, ns 4000] zeroHist zeroStat).2 3999 = 1 := by
  decide!

/-- C10 fails as stated: for two equal timestamps the only interval is 0 and the stored
`max_pos` is 0, which is not an interval index in `[1, N-1]`; for the timestamps 5, 3 ns
the only interval is -2 and the stored max is 0. -/
theorem max_keeps_initial_value :
    intervals x86_64 [ns 5, ns 5] = [0] ∧
    (calc_interval_stats x86_64 [ns 5, ns 5] zeroHist zeroStat).1.max_pos = 0 ∧
    intervals x86_64 [ns 5, ns 3] = [-2] ∧
    (calc_interval_stats x86_64 [ns 5, ns 3] zeroHist zeroStat).1.max = 0 := by
  decide!

/-- C9 fails as stated: with a 32-bit `long`, for the timestamps 0 s, 3 s and
0.852516353 s the intervals are `LONG_MAX = 2147483647` (saturated) and `-2147483647`,
the mean is 0, the width is 1073742 and bins 0 and 3999 are non-empty, so `maxdist` is
2000 and `raw = 2147484000` exceeds `LONG_MAX`: the stored `xrange` is the wrapped,
negative `-2147483280`, not `(raw / 10 + 1) * 10 = 2147484010`. -/
theorem xrange_wraps_with_32bit_long :
    intervals arm32 [⟨0, 0⟩, ⟨3, 0⟩, ⟨0, 852516353⟩] = [2147483647, -2147483647] ∧
    (calc_interval_stats arm32 [⟨0, 0⟩, ⟨3, 0⟩, ⟨0, 852516353⟩] zeroHist
      zeroStat).1.bin_granularity = 1073742 ∧
    maxdist (calc_interval_stats arm32 [⟨0, 0⟩, ⟨3, 0⟩, ⟨0, 852516353⟩] zeroHist
      zeroStat).2 = 2000 ∧
    (calc_interval_stats arm32 [⟨0, 0⟩, ⟨3, 0⟩, ⟨0, 852516353⟩] zeroHist
      zeroStat).1.xrange = -2147483280 ∧
    ((2000 : Int) * 1073742 / XRANGE_MARGIN + 1) * XRANGE_MARGIN = 2147484010 := by
  decide!

/-! ## Pass 2: the histogram -/

theorem clamp_bin_bounds (b : Int) : 0 ≤ clamp_bin b ∧ clamp_bin b ≤ 3999 := by
  unfold clamp_bin
  split_ifs <;> omega

theorem bin_index_lt (P : Platform) (mean : ℚ) (g d : Int) :
    bin_index P mean g d < HIST_BINS := by
  have h := clamp_bin_bounds (bin_raw P mean g d)
  unfold bin_index HIST_BINS
  omega

theorem intervals_length (P : Platform) : ∀ data : List Timespec,
    (intervals P data).length = data.length - 1
  | [] => rfl
  | [_] => rfl
  | a :: b :: rest => by
    have ih := intervals_length P (b :: rest)
    simp only [intervals, List.length_cons] at ih ⊢
    omega

theorem bin_count_le (P : Platform) (mean : ℚ) (g : Int) (ds : List Int) (i : Nat) :
    bin_count P mean g ds i ≤ ds.length :=
  List.countP_le_length _

/-- Pass 2 adds to every bin the number of intervals that fall into it, as long as no
count leaves the range of `long`. -/
theorem pass2_loop_apply (P : Platform) (mean : ℚ) (g : Int) :
    ∀ (ds : List Int) (hist : Nat → Int),
      (∀ i, 0 ≤ hist i ∧ hist i + ds.length ≤ 2147483647) →
      ∀ i, pass2_loop P mean g ds hist i = hist i + bin_count P mean g ds i := by
  intro ds
  induction ds with
  | nil =>
    intro hist _ i
    simp [pass2_loop, bin_count]
  | cons d ds ih =>
    intro hist hh i
    have hb := hh (bin_index P mean g d)
    simp only [List.length_cons, Nat.cast_add, Nat.cast_one] at hb
    have hw : wrapLong P (hist (bin_index P mean g d) + 1)
        = hist (bin_index P mean g d) + 1 :=
      wrapLong_eq P _ (by omega) (by omega)
    have hstep : ∀ j, hist_incr P hist (bin_index P mean g d) j
        = hist j + (if bin_index P mean g d = j then 1 else 0) := by
      intro j
      unfold hist_incr
      by_cases hj : bin_index P mean g d = j
      · subst hj
        simp [hw]
      · have hj2 : j ≠ bin_index P mean g d := fun h => hj h.symm
        simp [Function.update_noteq hj2, hj]
    have hh2 : ∀ j, 0 ≤ hist_incr P hist (bin_index P mean g d) j ∧
        hist_incr P hist (bin_index P mean g d) j + ds.length ≤ 2147483647 := by
      intro j
      have hj := hh j
      simp only [List.length_cons, Nat.cast_add, Nat.cast_one] at hj
      rw [hstep j]
      split_ifs <;> omega
    rw [pass2_loop, ih _ hh2 i, hstep i]
    unfold bin_count
    rw [List.countP_cons]
    by_cases hi : bin_index P mean g d = i
    · simp [hi]
      ring
    · simp [hi]

theorem bin_count_sum (P : Platform) (mean : ℚ) (g : Int) (ds : List Int) :
    ∑ i in Finset.range HIST_BINS, (bin_count P mean g ds i : Int) = ds.length := by
  induction ds with
  | nil => simp [bin_count]
  | cons d ds ih =>
    have hlt := bin_index_lt P mean g d
    have hc : ∀ i, (bin_count P mean g (d :: ds) i : Int)
        = bin_count P mean g ds i + (if bin_index P mean g d = i then 1 else 0) := by
      intro i
      unfold bin_count
      rw [List.countP_cons]
      by_cases hi : bin_index P mean g d = i <;> simp [hi]
    simp only [hc, Finset.sum_add_distrib, ih, Finset.sum_ite_eq, Finset.mem_range, hlt,
      if_true, List.length_cons]
    push_cast
    ring

/-! ## Pass 1: extrema -/

theorem pass1_loop_max : ∀ (ds : List Int) (i : Int) (st : Pass1),
    st.max ≤ (pass1_loop i ds st).max ∧
    (∀ d ∈ ds, d ≤ (pass1_loop i ds st).max) ∧
    (((pass1_loop i ds st).max = st.max ∧ (pass1_loop i ds st).max_pos = st.max_pos) ∨
      (i ≤ (pass1_loop i ds st).max_pos ∧ (pass1_loop i ds st).max_pos < i + ds.length ∧
        ds[((pass1_loop i ds st).max_pos - i).toNat]? = some (pass1_loop i ds st).max)) := by
  intro ds
  induction ds with
  | nil =>
    intro i st
    simp [pass1_loop]
  | cons d ds ih =>
    intro i st
    obtain ⟨h1, h2, h3⟩ := ih (i + 1) (pass1_step i d st)
    rw [pass1_loop]
    have hst : (pass1_step i d st).max = if d > st.max then d else st.max := rfl
    have hsp : (pass1_step i d st).max_pos = if d > st.max then i else st.max_pos := rfl
    generalize pass1_loop (i + 1) ds (pass1_step i d st) = r at h1 h2 h3 ⊢
    rw [hst] at h1 h3
    rw [hsp] at h3
    refine ⟨?_, ?_, ?_⟩
    · split_ifs at h1 <;> omega
    · intro x hx
      rcases List.mem_cons.mp hx with hx | hx
      · subst hx
        split_ifs at h1 <;> omega
      · exact h2 x hx
    · rcases h3 with ⟨e1, e2⟩ | ⟨e1, e2, e3⟩
      · by_cases hd : d > st.max
        · right
          simp only [hd, if_true] at e1 e2
          refine ⟨by omega, by simp only [List.length_cons]; push_cast; omega, ?_⟩
          rw [e2, e1]
          simp
        · left
          simp only [hd, if_false] at e1 e2
          exact ⟨e1, e2⟩
      · right
        refine ⟨by omega, by simp only [List.length_cons]; push_cast; omega, ?_⟩
        have hk : (r.max_pos - i).toNat = (r.max_pos - (i + 1)).toNat + 1 := by omega
        rw [hk, List.getElem?_cons_succ]
        exact e3

theorem pass1_loop_min : ∀ (ds : List Int) (i : Int) (st : Pass1),
    (pass1_loop i ds st).min ≤ st.min ∧
    (∀ d ∈ ds, (pass1_loop i ds st).min ≤ d) ∧
    (((pass1_loop i ds st).min = st.min ∧ (pass1_loop i ds st).min_pos = st.min_pos) ∨
      (i ≤ (pass1_loop i ds st).min_pos ∧ (pass1_loop i ds st).min_pos < i + ds.length ∧
        ds[((pass1_loop i ds st).min_pos - i).toNat]? = some (pass1_loop i ds st).min)) := by
  intro ds
  induction ds with
  | nil =>
    intro i st
    simp [pass1_loop]
  | cons d ds ih =>
    intro i st
    obtain ⟨h1, h2, h3⟩ := ih (i + 1) (pass1_step i d st)
    rw [pass1_loop]
    have hst : (pass1_step i d st).min = if d < st.min then d else st.min := rfl
    have hsp : (pass1_step i d st).min_pos = if d < st.min then i else st.min_pos := rfl
    generalize pass1_loop (i + 1) ds (pass1_step i d st) = r at h1 h2 h3 ⊢
    rw [hst] at h1 h3
    rw [hsp] at h3
    refine ⟨?_, ?_, ?_⟩
    · split_ifs at h1 <;> omega
    · intro x hx
      rcases List.mem_cons.mp hx with hx | hx
      · subst hx
        split_ifs at h1 <;> omega
      · exact h2 x hx
    · rcases h3 with ⟨e1, e2⟩ | ⟨e1, e2, e3⟩
      · by_cases hd : d < st.min
        · right
          simp only [hd, if_true] at e1 e2
          refine ⟨by omega, by simp only [List.length_cons]; push_cast; omega, ?_⟩
          rw [e2, e1]
          simp
        · left
          simp only [hd, if_false] at e1 e2
          exact ⟨e1, e2⟩
      · right
        refine ⟨by omega, by simp only [List.length_cons]; push_cast; omega, ?_⟩
        have hk : (r.min_pos - i).toNat = (r.min_pos - (i + 1)).toNat + 1 := by omega
        rw [hk, List.getElem?_cons_succ]
        exact e3

theorem calc_min (P : Platform) (data : List Timespec) (hist : Nat → Int)
    (is0 : interval_stat) : (calc_interval_stats P data hist is0).1.min
      = (pass1_loop 1 (intervals P data) (pass1_init P)).min := rfl

theorem calc_max (P : Platform) (data : List Timespec) (hist : Nat → Int)
    (is0 : interval_stat) : (calc_interval_stats P data hist is0).1.max
      = (pass1_loop 1 (intervals P data) (pass1_init P)).max := rfl

theorem calc_min_pos (P : Platform) (data : List Timespec) (hist : Nat → Int)
    (is0 : interval_stat) : (calc_interval_stats P data hist is0).1.min_pos
      = (pass1_loop 1 (intervals P data) (pass1_init P)).min_pos := rfl

theorem calc_max_pos (P : Platform) (data : List Timespec) (hist : Nat → Int)
    (is0 : interval_stat) : (calc_interval_stats P data hist is0).1.max_pos
      = (pass1_loop 1 (intervals P data) (pass1_init P)).max_pos := rfl

/-- Every interval lies between the stored minimum and the stored maximum. -/
theorem stored_min_le_max_ge (P : Platform) (data : List Timespec) (hist : Nat → Int)
    (is0 : interval_stat) : ∀ d ∈ intervals P data,
      (calc_interval_stats P data hist is0).1.min ≤ d ∧
      d ≤ (calc_interval_stats P data hist is0).1.max := by
  intro d hd
  rw [calc_min, calc_max]
  exact ⟨(pass1_loop_min _ 1 _).2.1 d hd, (pass1_loop_max _ 1 _).2.1 d hd⟩

/-- C10, amended: when some interval is positive and some interval is below `LONG_MAX`,
the stored min is the smallest and the stored max the largest of the `N-1` intervals,
and `min_pos`, `max_pos` are interval indices in `[1, N-1]` at which the interval equals
the stored min, respectively max. -/
theorem pass1_extrema (P : Platform) (data : List Timespec) (hist : Nat → Int)
    (is0 : interval_stat) (hpos : ∃ d ∈ intervals P data, 0 < d)
    (hlt : ∃ d ∈ intervals P data, d < LONG_MAX P) :
    (∀ d ∈ intervals P data,
      (calc_interval_stats P data hist is0).1.min ≤ d ∧
      d ≤ (calc_interval_stats P data hist is0).1.max) ∧
    1 ≤ (calc_interval_stats P data hist is0).1.min_pos ∧
    (calc_interval_stats P data hist is0).1.min_pos ≤ (data.length : Int) - 1 ∧
    (intervals P data)[((calc_interval_stats P data hist is0).1.min_pos - 1).toNat]?
      = some (calc_interval_stats P data hist is0).1.min ∧
    1 ≤ (calc_interval_stats P data hist is0).1.max_pos ∧
    (calc_interval_stats P data hist is0).1.max_pos ≤ (data.length : Int) - 1 ∧
    (intervals P data)[((calc_interval_stats P data hist is0).1.max_pos - 1).toNat]?
      = some (calc_interval_stats P data hist is0).1.max := by
  have hlen := intervals_length P data
  obtain ⟨a1, a2, a3⟩ := pass1_loop_min (intervals P data) 1 (pass1_init P)
  obtain ⟨b1, b2, b3⟩ := pass1_loop_max (intervals P data) 1 (pass1_init P)
  have hne : 1 ≤ (intervals P data).length := by
    obtain ⟨d, hd, _⟩ := hpos
    exact List.length_pos_of_mem hd
  refine ⟨stored_min_le_max_ge P data hist is0, ?_⟩
  rw [calc_min, calc_max, calc_min_pos, calc_max_pos]
  have hmin : 1 ≤ (pass1_loop 1 (intervals P data) (pass1_init P)).min_pos ∧
      (pass1_loop 1 (intervals P data) (pass1_init P)).min_pos
        < 1 + ((intervals P data).length : Int) ∧
      (intervals P data)[((pass1_loop 1 (intervals P data) (pass1_init P)).min_pos - 1).toNat]?
        = some (pass1_loop 1 (intervals P data) (pass1_init P)).min := by
    rcases a3 with ⟨e1, _⟩ | h
    · obtain ⟨d, hd, hdl⟩ := hlt
      have := a2 d hd
      have hi : (pass1_init P).min = LONG_MAX P := rfl
      omega
    · exact h
  have hmax : 1 ≤ (pass1_loop 1 (intervals P data) (pass1_init P)).max_pos ∧
      (pass1_loop 1 (intervals P data) (pass1_init P)).max_pos
        < 1 + ((intervals P data).length : Int) ∧
      (intervals P data)[((pass1_loop 1 (intervals P data) (pass1_init P)).max_pos - 1).toNat]?
        = some (pass1_loop 1 (intervals P data) (pass1_init P)).max := by
    rcases b3 with ⟨e1, _⟩ | h
    · obtain ⟨d, hd, hdl⟩ := hpos
      have := b2 d hd
      have hi : (pass1_init P).max = 0 := rfl
      omega
    · exact h
  obtain ⟨m1, m2, m3⟩ := hmin
  obtain ⟨n1, n2, n3⟩ := hmax
  refine ⟨m1, by omega, m3, n1, by omega, n3⟩

/-- An instance: the timestamps 0, 3, 5 ns, with the intervals 3 and 2. -/
theorem pass1_extrema_witness :
    (∀ d ∈ intervals x86_64 [ns 0, ns 3, ns 5],
      (calc_interval_stats x86_64 [ns 0, ns 3, ns 5] zeroHist zeroStat).1.min ≤ d ∧
      d ≤ (calc_interval_stats x86_64 [ns 0, ns 3, ns 5] zeroHist zeroStat).1.max) ∧
    1 ≤ (calc_interval_stats x86_64 [ns 0, ns 3, ns 5] zeroHist zeroStat).1.min_pos ∧
    (calc_interval_stats x86_64 [ns 0, ns 3, ns 5] zeroHist zeroStat).1.min_pos
      ≤ (([ns 0, ns 3, ns 5] : List Timespec).length : Int) - 1 ∧
    (intervals x86_64 [ns 0, ns 3, ns 5])[
      ((calc_interval_stats x86_64 [ns 0, ns 3, ns 5] zeroHist zeroStat).1.min_pos - 1).toNat]?
      = some (calc_interval_stats x86_64 [ns 0, ns 3, ns 5] zeroHist zeroStat).1.min ∧
    1 ≤ (calc_interval_stats x86_64 [ns 0, ns 3, ns 5] zeroHist zeroStat).1.max_pos ∧
    (calc_interval_stats x86_64 [ns 0, ns 3, ns 5] zeroHist zeroStat).1.max_pos
      ≤ (([ns 0, ns 3, ns 5] : List Timespec).length : Int) - 1 ∧
    (intervals x86_64 [ns 0, ns 3, ns 5])[
      ((calc_interval_stats x86_64 [ns 0, ns 3, ns 5] zeroHist zeroStat).1.max_pos - 1).toNat]?
      = some (calc_interval_stats x86_64 [ns 0, ns 3, ns 5] zeroHist zeroStat).1.max :=
  pass1_extrema x86_64 [ns 0, ns 3, ns 5] zeroHist zeroStat
    ⟨3, by decide, by decide⟩ ⟨3, by decide, by decide⟩

/-! ## The statistics do not depend on the values on entry -/

theorem i2d_natCast (n : Nat) (h : n < 2147483648) : i2d (n : Int) = (n : ℚ) := by
  unfold i2d
  have h1 : |(n : Int)| < 2 ^ 53 := by
    rw [abs_of_nonneg (by omega)]
    omega
  have := fl_intCast (n : Int) h1
  simpa using this

/-- For at least two samples every field of the result is assigned: the result does not
depend on the `interval_stat` on entry. -/
theorem calc_indep_stat (P : Platform) (data : List Timespec) (hist : Nat → Int)
    (is0 is1 : interval_stat) (hN : 2 ≤ data.length) (hI : data.length < 2147483648) :
    calc_interval_stats P data hist is0 = calc_interval_stats P data hist is1 := by
  have hn := i2d_natCast data.length hI
  have c1 : i2d (data.length : Int) ≠ 0 := by
    rw [hn]
    have : (0 : ℚ) < (data.length : ℚ) := by exact_mod_cast (by omega : 0 < data.length)
    exact this.ne'
  have c2 : i2d (data.length : Int) > 1 := by
    rw [hn]
    exact_mod_cast (by omega : 1 < data.length)
  simp only [calc_interval_stats, c1, c2, ne_eq, not_false_eq_true, if_true]

theorem calc_snd (P : Platform) (data : List Timespec) (hist : Nat → Int)
    (is0 : interval_stat) : (calc_interval_stats P data hist is0).2
      = pass2_loop P (calc_interval_stats P data hist is0).1.mean_us
          (calc_interval_stats P data hist is0).1.bin_granularity (intervals P data) hist :=
  rfl

theorem calc_mean_indep (P : Platform) (data : List Timespec) (h1 h2 : Nat → Int)
    (is0 : interval_stat) : (calc_interval_stats P data h1 is0).1.mean_us
      = (calc_interval_stats P data h2 is0).1.mean_us := rfl

theorem calc_granularity_indep (P : Platform) (data : List Timespec) (h1 h2 : Nat → Int)
    (is0 : interval_stat) : (calc_interval_stats P data h1 is0).1.bin_granularity
      = (calc_interval_stats P data h2 is0).1.bin_granularity := rfl

/-- The histogram on entry reaches the statistics only through the scan of the
non-empty bins. -/
theorem calc_fst_congr (P : Platform) (data : List Timespec) (h1 h2 : Nat → Int)
    (is0 : interval_stat)
    (h : maxdist (calc_interval_stats P data h1 is0).2
      = maxdist (calc_interval_stats P data h2 is0).2) :
    (calc_interval_stats P data h1 is0).1 = (calc_interval_stats P data h2 is0).1 := by
  simp only [calc_interval_stats] at h ⊢
  rw [h]

theorem maxdist_upto_congr (h1 h2 : Nat → Int) (h : ∀ i, h1 i ≠ 0 ↔ h2 i ≠ 0) :
    ∀ n, maxdist_upto h1 n = maxdist_upto h2 n := by
  intro n
  induction n with
  | zero => rfl
  | succ n ih =>
    rw [maxdist_upto, maxdist_upto, ih]
    exact if_congr (and_congr (h n) Iff.rfl) rfl rfl

/-- The histogram after a run that started from all-zero bins. -/
theorem calc_hist_from_zero (P : Platform) (data : List Timespec) (is0 : interval_stat)
    (hI : data.length < 2147483648) (i : Nat) :
    (calc_interval_stats P data zeroHist is0).2 i
      = bin_count P (calc_interval_stats P data zeroHist is0).1.mean_us
          (calc_interval_stats P data zeroHist is0).1.bin_granularity (intervals P data) i := by
  rw [calc_snd, pass2_loop_apply]
  · simp [zeroHist]
  · intro j
    have := intervals_length P data
    simp only [zeroHist]
    omega

/-- C1: for a series of `N >= 2` timestamps (`N` an `int`) and a histogram that is all
zero on entry, the bin counts after `calc_interval_stats` sum to exactly `N-1`: there are
`N-1` intervals, every bin holds the number of intervals whose index it is, and every
index lies in `[0, HIST_BINS-1]` after the clamp. -/
theorem histogram_total (P : Platform) (data : List Timespec) (is0 : interval_stat)
    (hN : 2 ≤ data.length) (hI : data.length < 2147483648) :
    ∑ i in Finset.range HIST_BINS, (calc_interval_stats P data zeroHist is0).2 i
      = (data.length : Int) - 1 ∧
    ((intervals P data).length : Int) = (data.length : Int) - 1 ∧
    (∀ i, (calc_interval_stats P data zeroHist is0).2 i
      = bin_count P (calc_interval_stats P data zeroHist is0).1.mean_us
          (calc_interval_stats P data zeroHist is0).1.bin_granularity (intervals P data) i) ∧
    (∀ d, 0 ≤ clamp_bin (bin_raw P (calc_interval_stats P data zeroHist is0).1.mean_us
          (calc_interval_stats P data zeroHist is0).1.bin_granularity d) ∧
      clamp_bin (bin_raw P (calc_interval_stats P data zeroHist is0).1.mean_us
          (calc_interval_stats P data zeroHist is0).1.bin_granularity d)
        ≤ (HIST_BINS : Int) - 1) := by
  have hlen := intervals_length P data
  have hl : ((intervals P data).length : Int) = (data.length : Int) - 1 := by omega
  refine ⟨?_, hl, fun i => calc_hist_from_zero P data is0 hI i, fun d => ?_⟩
  · rw [Finset.sum_congr rfl (fun i _ => calc_hist_from_zero P data is0 hI i),
      bin_count_sum, hl]
  · have := clamp_bin_bounds (bin_raw P (calc_interval_stats P data zeroHist is0).1.mean_us
      (calc_interval_stats P data zeroHist is0).1.bin_granularity d)
    simp only [HIST_BINS]
    omega

/-- An instance: the timestamps 0, 3, 6 ns. -/
theorem histogram_total_witness :
    ∑ i in Finset.range HIST_BINS,
        (calc_interval_stats x86_64 [ns 0, ns 3, ns 6] zeroHist zeroStat).2 i
      = (([ns 0, ns 3, ns 6] : List Timespec).length : Int) - 1 :=
  (histogram_total x86_64 [ns 0, ns 3, ns 6] zeroStat (by decide) (by decide)).1

/-- C5, amended: a second run on the same series (`2 <= N <= 2^30`), started from the
histogram and the `interval_stat` the first run produced from all-zero bins, yields the
same `interval_stat`, and a histogram in which every bin holds twice the count the
first run left there: pass 2 adds to the bins it is given. -/
theorem second_run_doubles_histogram (P : Platform) (data : List Timespec)
    (is0 : interval_stat) (hN : 2 ≤ data.length) (hI : data.length ≤ 1073741824) :
    (calc_interval_stats P data (calc_interval_stats P data zeroHist is0).2
        (calc_interval_stats P data zeroHist is0).1).1
      = (calc_interval_stats P data zeroHist is0).1 ∧
    ∀ i, (calc_interval_stats P data (calc_interval_stats P data zeroHist is0).2
        (calc_interval_stats P data zeroHist is0).1).2 i
      = 2 * (calc_interval_stats P data zeroHist is0).2 i := by
  have hI2 : data.length < 2147483648 := by omega
  have hlen := intervals_length P data
  rw [calc_indep_stat P data (calc_interval_stats P data zeroHist is0).2
    (calc_interval_stats P data zeroHist is0).1 is0 hN hI2]
  have h1 := calc_hist_from_zero P data is0 hI2
  have h2 : ∀ i, (calc_interval_stats P data (calc_interval_stats P data zeroHist is0).2 is0).2 i
      = 2 * (calc_interval_stats P data zeroHist is0).2 i := by
    intro i
    rw [calc_snd, pass2_loop_apply]
    · rw [calc_mean_indep P data _ zeroHist, calc_granularity_indep P data _ zeroHist, h1]
      ring
    · intro j
      rw [h1]
      have := bin_count_le P (calc_interval_stats P data zeroHist is0).1.mean_us
        (calc_interval_stats P data zeroHist is0).1.bin_granularity (intervals P data) j
      omega
  refine ⟨?_, h2⟩
  apply calc_fst_congr
  unfold maxdist
  apply maxdist_upto_congr
  intro i
  rw [h2 i]
  constructor <;> intro h <;> omega

/-- An instance: the timestamps 0, 3, 6 ns. -/
theorem second_run_doubles_histogram_witness :
    (calc_interval_stats x86_64 [ns 0, ns 3, ns 6]
        (calc_interval_stats x86_64 [ns 0, ns 3, ns 6] zeroHist zeroStat).2
        (calc_interval_stats x86_64 [ns 0, ns 3, ns 6] zeroHist zeroStat).1).1
      = (calc_interval_stats x86_64 [ns 0, ns 3, ns 6] zeroHist zeroStat).1 :=
  (second_run_doubles_histogram x86_64 [ns 0, ns 3, ns 6] zeroStat (by decide) (by decide)).1

/-! ## Conversions between doubles and integers -/

theorem qtrunc_intCast (n : Int) : qtrunc (n : ℚ) = n := by
  unfold qtrunc
  split_ifs
  · exact Int.floor_intCast n
  · rw [← Int.cast_neg, Int.floor_intCast, neg_neg]

theorem qtrunc_of_nonneg {q : ℚ} (h : 0 ≤ q) : qtrunc q = ⌊q⌋ := by
  simp [qtrunc, h]

theorem qtrunc_abs (q : ℚ) : qtrunc |q| = |qtrunc q| := by
  rcases le_or_lt 0 q with h | h
  · rw [abs_of_nonneg h, qtrunc_of_nonneg h, abs_of_nonneg (Int.floor_nonneg.mpr h)]
  · have h2 : 0 ≤ -q := by linarith
    rw [abs_of_neg h, qtrunc_of_nonneg h2]
    unfold qtrunc
    rw [if_neg (not_le.mpr h), abs_neg, abs_of_nonneg (Int.floor_nonneg.mpr h2)]

theorem qtrunc_max_abs (a b : ℚ) : qtrunc (max |a| |b|) = max |qtrunc a| |qtrunc b| := by
  rw [qtrunc_of_nonneg (le_max_of_le_left (abs_nonneg a)), ← qtrunc_abs, ← qtrunc_abs,
    qtrunc_of_nonneg (abs_nonneg a), qtrunc_of_nonneg (abs_nonneg b)]
  exact Int.floor_mono.map_max

theorem cvtS32_intCast (P : Platform) (n : Int) (h1 : -2147483648 ≤ n) (h2 : n < 2147483648) :
    cvtS P 32 (n : ℚ) = n := by
  unfold cvtS
  rw [qtrunc_intCast, if_pos]
  norm_num
  exact ⟨h1, h2⟩

theorem d2l_intCast (P : Platform) (n : Int) (h1 : -2147483648 ≤ n) (h2 : n < 2147483648) :
    d2l P (n : ℚ) = n := by
  unfold d2l cvtS
  rw [qtrunc_intCast, if_pos]
  rcases longBits_cases P with h | h <;> rw [h] <;> norm_num <;> constructor <;> omega

theorem iabs_eq (x : Int) (h : |x| < 2147483648) : iabs x = |x| := by
  unfold iabs wrapInt
  exact wrapS32_eq _ (by have := abs_nonneg x; omega) h

theorem iabs_bounds (x : Int) : -2147483648 ≤ iabs x ∧ iabs x < 2147483648 :=
  wrapS32_bounds _

theorem i2d_small (n : Int) (h : |n| < 2147483648) : i2d n = (n : ℚ) := by
  unfold i2d
  exact fl_intCast n (lt_trans h (by norm_num))

/-! ## The bin width -/

/-- The double quotient `range / 2000.0` followed by `ceill` is the exact integer
ceiling, for every `range` an `int` can hold. -/
theorem dceil_fl_div (R : Int) (h1 : 2000 < R) (h2 : R < 2147483648) :
    dceil (fl ((R : ℚ) / 2000)) = (R + 1999) / 2000 := by
  have hR : (R : ℚ) = 2000 * ((R / 2000 : Int) : ℚ) + ((R % 2000 : Int) : ℚ) := by
    have := Int.ediv_add_emod R 2000
    exact_mod_cast this.symm
  have hj0 : 0 ≤ R % 2000 := Int.emod_nonneg R (by norm_num)
  have hj1 : R % 2000 < 2000 := Int.emod_lt_of_pos R (by norm_num)
  have hk0 : 0 ≤ R / 2000 := by omega
  have hk1 : R / 2000 < 1073742 := by omega
  have hjq0 : (0 : ℚ) ≤ ((R % 2000 : Int) : ℚ) := by exact_mod_cast hj0
  have hjq1 : ((R % 2000 : Int) : ℚ) < 2000 := by exact_mod_cast hj1
  have hx : (R : ℚ) / 2000 = ((R / 2000 : Int) : ℚ) + ((R % 2000 : Int) : ℚ) / 2000 := by
    rw [hR]
    field_simp
    have := Int.ediv_add_emod R 2000
    have h3 : ((2000 * (R / 2000) + R % 2000 : Int) : ℚ) = (R : ℚ) := by rw [this]
    push_cast at h3
    linarith
  unfold dceil
  by_cases hj : R % 2000 = 0
  · have hx2 : (R : ℚ) / 2000 = ((R / 2000 : Int) : ℚ) := by
      rw [hx, hj]
      simp
    rw [hx2, fl_intCast _ (by rw [abs_of_nonneg hk0]; omega), ← Int.cast_neg,
      Int.floor_intCast]
    omega
  · have hj2 : 1 ≤ R % 2000 := by omega
    have hjq2 : (1 : ℚ) ≤ ((R % 2000 : Int) : ℚ) := by exact_mod_cast hj2
    have hup : fl ((R : ℚ) / 2000) ≤ ((R / 2000 + 1 : Int) : ℚ) := by
      apply fl_le_of_le (isRep_intCast _ (by rw [abs_of_nonneg (by omega)]; omega))
      rw [hx]
      push_cast
      have : ((R % 2000 : Int) : ℚ) / 2000 ≤ 1 := by
        rw [div_le_one (by norm_num)]
        exact hjq1.le
      linarith
    have hrep : IsRep (((2048 * (R / 2000) + 1 : Int) : ℚ) * (2 : ℚ) ^ (-11 : Int)) :=
      ⟨2048 * (R / 2000) + 1, -11, by rw [abs_of_nonneg (by omega)]; omega, rfl⟩
    have hlo : ((2048 * (R / 2000) + 1 : Int) : ℚ) * (2 : ℚ) ^ (-11 : Int)
        ≤ fl ((R : ℚ) / 2000) := by
      apply le_fl_of_le hrep
      rw [hx]
      have e : (2 : ℚ) ^ (-11 : Int) = 1 / 2048 := by norm_num
      rw [e]
      push_cast
      have : (1 : ℚ) / 2000 ≤ ((R % 2000 : Int) : ℚ) / 2000 :=
        div_le_div_of_nonneg_right hjq2 (by norm_num)
      linarith
    have hlo2 : ((R / 2000 : Int) : ℚ) < fl ((R : ℚ) / 2000) := by
      have e : (2 : ℚ) ^ (-11 : Int) = 1 / 2048 := by norm_num
      rw [e] at hlo
      push_cast at hlo
      linarith
    have hfl : ⌊-fl ((R : ℚ) / 2000)⌋ = -(R / 2000 + 1) := by
      rw [Int.floor_eq_iff]
      push_cast at hup ⊢
      constructor <;> linarith
    rw [hfl]
    omega

/-- The bin width as a function of the integer `range`. -/
theorem bin_width_eq (P : Platform) (R : Int) (hR : R < 2147483648) :
    bin_width P R = if R ≤ 2000 then 1 else (R + 1999) / 2000 := by
  unfold bin_width
  split_ifs with h
  · rfl
  · have h1 : 2000 < R := by omega
    rw [i2d_small R (by rw [abs_of_nonneg (by omega)]; exact hR),
      i2d_small 2000 (by norm_num)]
    unfold ddiv
    have e : ((2000 : Int) : ℚ) = 2000 := by norm_num
    rw [e, dceil_fl_div R h1 hR]
    exact d2l_intCast P _ (by omega) (by omega)

theorem bin_range_bounds (P : Platform) (mn mx : Int) (mean : ℚ) :
    -2147483648 ≤ bin_range P mn mx mean ∧ bin_range P mn mx mean < 2147483648 := by
  unfold bin_range
  split_ifs <;> exact iabs_bounds _

/-- When both differences are within the range of `int`, `range` is the integer part
of the larger magnitude. -/
theorem bin_range_eq (P : Platform) (mn mx : Int) (mean : ℚ)
    (h : max |dsub (i2d mn) mean| |dsub (i2d mx) mean| < 2147483648) :
    bin_range P mn mx mean = qtrunc (max |dsub (i2d mn) mean| |dsub (i2d mx) mean|) := by
  have key : ∀ y : ℚ, |y| < 2147483648 → iabs (d2i P y) = |qtrunc y| := by
    intro y hy
    have h0 : qtrunc |y| < 2147483648 := by
      rw [qtrunc_of_nonneg (abs_nonneg y), Int.floor_lt]
      exact_mod_cast hy
    rw [qtrunc_abs] at h0
    have h1 := abs_lt.mp h0
    have hd : d2i P y = qtrunc y := by
      unfold d2i cvtS
      rw [if_pos]
      norm_num
      constructor <;> omega
    rw [hd, iabs_eq _ h0]
  have ha := key _ (lt_of_le_of_lt (le_max_left _ _) h)
  have hb := key _ (lt_of_le_of_lt (le_max_right _ _) h)
  unfold bin_range
  rw [ha, hb, qtrunc_max_abs]
  split_ifs with hc
  · exact (max_eq_right hc.le).symm
  · exact (max_eq_left (not_lt.mp hc)).symm

theorem calc_granularity (P : Platform) (data : List Timespec) (hist : Nat → Int)
    (is0 : interval_stat) : (calc_interval_stats P data hist is0).1.bin_granularity
      = bin_width P (bin_range P (calc_interval_stats P data hist is0).1.min
          (calc_interval_stats P data hist is0).1.max
          (calc_interval_stats P data hist is0).1.mean_us) := rfl

theorem granularity_bounds (P : Platform) (data : List Timespec) (hist : Nat → Int)
    (is0 : interval_stat) : 1 ≤ (calc_interval_stats P data hist is0).1.bin_granularity ∧
      (calc_interval_stats P data hist is0).1.bin_granularity ≤ 1073742 := by
  rw [calc_granularity]
  have hb := bin_range_bounds P (calc_interval_stats P data hist is0).1.min
    (calc_interval_stats P data hist is0).1.max (calc_interval_stats P data hist is0).1.mean_us
  rw [bin_width_eq P _ hb.2]
  split_ifs <;> omega

/-- C6, amended: when the exact `range = max(|min - mean|, |max - mean|)` of the stored
values (the differences taken in double arithmetic) is below `2^31`, the stored bin
width is 1 when the integer part of `range` is at most `HIST_BINS/2 = 2000`, and the
ceiling of that integer part divided by 2000 otherwise; an integer part of 2000 gives
width 1 and 2001 gives width 2. -/
theorem granularity_of_integer_range (P : Platform) (data : List Timespec)
    (hist : Nat → Int) (is0 : interval_stat)
    (h : max |dsub (i2d (calc_interval_stats P data hist is0).1.min)
            (calc_interval_stats P data hist is0).1.mean_us|
          |dsub (i2d (calc_interval_stats P data hist is0).1.max)
            (calc_interval_stats P data hist is0).1.mean_us| < 2147483648) :
    (calc_interval_stats P data hist is0).1.bin_granularity
      = (if qtrunc (max |dsub (i2d (calc_interval_stats P data hist is0).1.min)
              (calc_interval_stats P data hist is0).1.mean_us|
            |dsub (i2d (calc_interval_stats P data hist is0).1.max)
              (calc_interval_stats P data hist is0).1.mean_us|) ≤ 2000 then 1
        else ⌈((qtrunc (max |dsub (i2d (calc_interval_stats P data hist is0).1.min)
              (calc_interval_stats P data hist is0).1.mean_us|
            |dsub (i2d (calc_interval_stats P data hist is0).1.max)
              (calc_interval_stats P data hist is0).1.mean_us|) : Int) : ℚ) / 2000⌉) ∧
    (qtrunc (max |dsub (i2d (calc_interval_stats P data hist is0).1.min)
            (calc_interval_stats P data hist is0).1.mean_us|
          |dsub (i2d (calc_interval_stats P data hist is0).1.max)
            (calc_interval_stats P data hist is0).1.mean_us|) = 2000 →
      (calc_interval_stats P data hist is0).1.bin_granularity = 1) ∧
    (qtrunc (max |dsub (i2d (calc_interval_stats P data hist is0).1.min)
            (calc_interval_stats P data hist is0).1.mean_us|
          |dsub (i2d (calc_interval_stats P data hist is0).1.max)
            (calc_interval_stats P data hist is0).1.mean_us|) = 2001 →
      (calc_interval_stats P data hist is0).1.bin_granularity = 2) := by
  have hb := bin_range_bounds P (calc_interval_stats P data hist is0).1.min
    (calc_interval_stats P data hist is0).1.max (calc_interval_stats P data hist is0).1.mean_us
  have hg := calc_granularity P data hist is0
  rw [bin_width_eq P _ hb.2, bin_range_eq P _ _ _ h] at hg
  generalize qtrunc (max |dsub (i2d (calc_interval_stats P data hist is0).1.min)
            (calc_interval_stats P data hist is0).1.mean_us|
          |dsub (i2d (calc_interval_stats P data hist is0).1.max)
            (calc_interval_stats P data hist is0).1.mean_us|) = R at hg ⊢
  generalize (calc_interval_stats P data hist is0).1.bin_granularity = g at hg ⊢
  have hceil : ⌈(R : ℚ) / 2000⌉ = (R + 1999) / 2000 := by
    rw [Int.ceil_eq_iff]
    have e := Int.ediv_add_emod (R + 1999) 2000
    have e0 : 0 ≤ (R + 1999) % 2000 := Int.emod_nonneg _ (by norm_num)
    have e1 : (R + 1999) % 2000 < 2000 := Int.emod_lt_of_pos _ (by norm_num)
    constructor
    · rw [lt_div_iff₀ (by norm_num)]
      have : ((R + 1999) / 2000 - 1) * 2000 < R := by omega
      exact_mod_cast this
    · rw [div_le_iff₀ (by norm_num)]
      have : R ≤ (R + 1999) / 2000 * 2000 := by omega
      exact_mod_cast this
  rw [hceil]
  refine ⟨hg, ?_, ?_⟩
  · intro hR
    rw [hg, hR]
    norm_num
  · intro hR
    rw [hg, hR]
    norm_num

/-- An instance: the timestamps 0, 4001 ns, where the range is 2000.5. -/
theorem granularity_of_integer_range_witness :
    (calc_interval_stats x86_64 [ns 0, ns 4001] zeroHist zeroStat).1.bin_granularity
      = (if qtrunc (max
            |dsub (i2d (calc_interval_stats x86_64 [ns 0, ns 4001] zeroHist zeroStat).1.min)
              (calc_interval_stats x86_64 [ns 0, ns 4001] zeroHist zeroStat).1.mean_us|
            |dsub (i2d (calc_interval_stats x86_64 [ns 0, ns 4001] zeroHist zeroStat).1.max)
              (calc_interval_stats x86_64 [ns 0, ns 4001] zeroHist zeroStat).1.mean_us|)
          ≤ 2000 then 1
        else ⌈((qtrunc (max
            |dsub (i2d (calc_interval_stats x86_64 [ns 0, ns 4001] zeroHist zeroStat).1.min)
              (calc_interval_stats x86_64 [ns 0, ns 4001] zeroHist zeroStat).1.mean_us|
            |dsub (i2d (calc_interval_stats x86_64 [ns 0, ns 4001] zeroHist zeroStat).1.max)
              (calc_interval_stats x86_64 [ns 0, ns 4001] zeroHist zeroStat).1.mean_us|)
            : Int) : ℚ) / 2000⌉) :=
  (granularity_of_integer_range x86_64 [ns 0, ns 4001] zeroHist zeroStat (by decide!)).1

/-! ## The plotting range -/

theorem maxdist_upto_spec (hist : Nat → Int) : ∀ n : Nat, n ≤ 4000 →
    0 ≤ maxdist_upto hist n ∧ maxdist_upto hist n ≤ 2000 ∧
    (∀ i < n, hist i ≠ 0 → |(i : Int) - 2000| ≤ maxdist_upto hist n) ∧
    (maxdist_upto hist n = 0 ∨
      ∃ i < n, hist i ≠ 0 ∧ |(i : Int) - 2000| = maxdist_upto hist n) := by
  intro n
  induction n with
  | zero =>
    intro _
    simp [maxdist_upto]
  | succ n ih =>
    intro hn
    obtain ⟨h0, h1, h2, h3⟩ := ih (by omega)
    have habs : |(n : Int) - 2000| ≤ 2000 := by
      rw [abs_le]
      constructor <;> omega
    have hi : iabs ((n : Int) - 2000) = |(n : Int) - 2000| :=
      iabs_eq _ (by omega)
    rw [maxdist_upto, hi]
    by_cases hc : hist n ≠ 0 ∧ |(n : Int) - 2000| > maxdist_upto hist n
    · rw [if_pos hc]
      refine ⟨abs_nonneg _, habs, ?_, Or.inr ⟨n, by omega, hc.1, rfl⟩⟩
      intro i hin hne
      rcases Nat.lt_succ_iff_lt_or_eq.mp hin with hlt | heq
      · have := h2 i hlt hne
        omega
      · subst heq
        exact le_refl _
    · rw [if_neg hc]
      refine ⟨h0, h1, ?_, ?_⟩
      · intro i hin hne
        rcases Nat.lt_succ_iff_lt_or_eq.mp hin with hlt | heq
        · exact h2 i hlt hne
        · subst heq
          by_contra hcon
          exact hc ⟨hne, by omega⟩
      · rcases h3 with h3 | ⟨i, hi1, hi2, hi3⟩
        · exact Or.inl h3
        · exact Or.inr ⟨i, by omega, hi2, hi3⟩

theorem xrange_of_eq (P : Platform) (md g : Int) (h0 : 0 ≤ md * g)
    (h1 : md * g + 10 ≤ LONG_MAX P) : xrange_of P md g = (md * g / 10 + 1) * 10 := by
  unfold xrange_of XRANGE_MARGIN
  rw [wrapLong_eq_of_le P (md * g) h0 (by omega), Int.tdiv_eq_ediv h0 (by norm_num),
    wrapLong_eq_of_le P (md * g / 10 + 1) (by omega) (by omega),
    wrapLong_eq_of_le P _ (by omega) (by omega)]

theorem calc_xrange (P : Platform) (data : List Timespec) (hist : Nat → Int)
    (is0 : interval_stat) : (calc_interval_stats P data hist is0).1.xrange
      = xrange_of P (maxdist (calc_interval_stats P data hist is0).2)
          (calc_interval_stats P data hist is0).1.bin_granularity := rfl

/-- C9, amended: on a platform with a 64-bit `long`, or when `raw + 10` does not exceed
`LONG_MAX`, for every histogram on entry, with `maxdist` the value the scan of the bins
leaves (the largest `|i - HIST_BINS/2|` over the non-empty bins, 0 when there is none)
and `raw = maxdist * bin_granularity`, the stored `xrange` is `(raw / 10 + 1) * 10` in
integer division, a multiple of 10 with `raw < xrange <= raw + 10`, and `raw = 23` gives
30.  The stored bin width is at least 1.  The same holds for lines 224-234 alone, for
every histogram and every width `g >= 1` with `maxdist * g + 10 <= LONG_MAX`. -/
theorem xrange_rounds_up_to_margin (P : Platform) (data : List Timespec) (hist : Nat → Int)
    (is0 : interval_stat)
    (hov : P.long64 = true ∨
      maxdist (calc_interval_stats P data hist is0).2
        * (calc_interval_stats P data hist is0).1.bin_granularity + 10 ≤ LONG_MAX P) :
    (∀ i < HIST_BINS, (calc_interval_stats P data hist is0).2 i ≠ 0 →
      |(i : Int) - 2000| ≤ maxdist (calc_interval_stats P data hist is0).2) ∧
    (maxdist (calc_interval_stats P data hist is0).2 = 0 ∨
      ∃ i < HIST_BINS, (calc_interval_stats P data hist is0).2 i ≠ 0 ∧
        |(i : Int) - 2000| = maxdist (calc_interval_stats P data hist is0).2) ∧
    1 ≤ (calc_interval_stats P data hist is0).1.bin_granularity ∧
    (calc_interval_stats P data hist is0).1.xrange
      = (maxdist (calc_interval_stats P data hist is0).2
          * (calc_interval_stats P data hist is0).1.bin_granularity / XRANGE_MARGIN + 1)
        * XRANGE_MARGIN ∧
    XRANGE_MARGIN ∣ (calc_interval_stats P data hist is0).1.xrange ∧
    maxdist (calc_interval_stats P data hist is0).2
        * (calc_interval_stats P data hist is0).1.bin_granularity
      < (calc_interval_stats P data hist is0).1.xrange ∧
    (calc_interval_stats P data hist is0).1.xrange
      ≤ maxdist (calc_interval_stats P data hist is0).2
        * (calc_interval_stats P data hist is0).1.bin_granularity + XRANGE_MARGIN ∧
    (maxdist (calc_interval_stats P data hist is0).2
        * (calc_interval_stats P data hist is0).1.bin_granularity = 23 →
      (calc_interval_stats P data hist is0).1.xrange = 30) ∧
    ∀ (h : Nat → Int) (g : Int), 1 ≤ g → maxdist h * g + 10 ≤ LONG_MAX P →
      xrange_of P (maxdist h) g = (maxdist h * g / XRANGE_MARGIN + 1) * XRANGE_MARGIN := by
  have phase : ∀ (h : Nat → Int) (g : Int), 1 ≤ g → maxdist h * g + 10 ≤ LONG_MAX P →
      xrange_of P (maxdist h) g
        = (maxdist h * g / XRANGE_MARGIN + 1) * XRANGE_MARGIN := by
    intro h g hg hle
    have hm := (maxdist_upto_spec h 4000 (le_refl _)).1
    exact xrange_of_eq P (maxdist h) g (mul_nonneg hm (by omega)) hle
  obtain ⟨m0, m1, m2, m3⟩ := maxdist_upto_spec (calc_interval_stats P data hist is0).2 4000
    (le_refl _)
  obtain ⟨g1, g2⟩ := granularity_bounds P data hist is0
  have hx := calc_xrange P data hist is0
  have hmd : maxdist (calc_interval_stats P data hist is0).2
      = maxdist_upto (calc_interval_stats P data hist is0).2 4000 := rfl
  rw [← hmd] at m0 m1 m2 m3
  generalize maxdist (calc_interval_stats P data hist is0).2 = md at *
  generalize (calc_interval_stats P data hist is0).1.bin_granularity = g at *
  generalize (calc_interval_stats P data hist is0).1.xrange = xr at *
  have hraw0 : 0 ≤ md * g := mul_nonneg m0 (by omega)
  have hraw1 : md * g ≤ 2000 * 1073742 := mul_le_mul m1 g2 (by omega) (by norm_num)
  have hov2 : md * g + 10 ≤ LONG_MAX P := by
    rcases hov with h64 | h
    · have : LONG_MAX P = 9223372036854775807 := by
        simp [LONG_MAX, Platform.longBits, h64]
      omega
    · exact h
  rw [xrange_of_eq P md g hraw0 hov2] at hx
  generalize md * g = raw at hraw0 hraw1 hov2 hx ⊢
  simp only [HIST_BINS, XRANGE_MARGIN] at phase ⊢
  refine ⟨m2, m3, g1, hx, ⟨raw / 10 + 1, by rw [hx]; ring⟩, by omega, by omega, ?_, phase⟩
  intro h23
  rw [hx, h23]
  norm_num

/-- An instance: the timestamps 0, 3, 6 ns on a platform with a 64-bit `long`. -/
theorem xrange_rounds_up_to_margin_witness :
    (calc_interval_stats x86_64 [ns 0, ns 3, ns 6] zeroHist zeroStat).1.xrange
      = (maxdist (calc_interval_stats x86_64 [ns 0, ns 3, ns 6] zeroHist zeroStat).2
          * (calc_interval_stats x86_64 [ns 0, ns 3, ns 6] zeroHist zeroStat).1.bin_granularity
          / XRANGE_MARGIN + 1)
        * XRANGE_MARGIN :=
  (xrange_rounds_up_to_margin x86_64 [ns 0, ns 3, ns 6] zeroHist zeroStat
    (Or.inl rfl)).2.2.2.1

/-! ## Pass 2: the rounding of the quotient -/

theorem bin_raw_eq (P : Platform) (mean : ℚ) (g d : Int)
    (h1 : -2147483648 ≤ ⌊dadd (bin_quot mean g d) (1 / 2)⌋)
    (h2 : ⌊dadd (bin_quot mean g d) (1 / 2)⌋ < 2147481648) :
    bin_raw P mean g d = ⌊dadd (bin_quot mean g d) (1 / 2)⌋ + 2000 := by
  unfold bin_raw dfloor d2i wrapInt
  rw [cvtS32_intCast P _ (by omega) (by omega), wrapS32_eq _ (by omega) (by omega)]

/-- Above the range of the theorem the `int` sum with `HIST_BINS/2` wraps: with mean 0 and
width 1 the interval 2147483000 has the quotient 2147483000, which fits an `int`, and
bin 0 is incremented, where the clamp of the integer sum gives bin 3999. -/
theorem bin_sum_wraps_near_int_max :
    bin_quot 0 1 2147483000 = 2147483000 ∧
    bin_index x86_64 0 1 2147483000 = 0 ∧
    clamp_bin (⌊(2147483000 : ℚ) + 1 / 2⌋ + 2000) = 3999 := by
  decide!

/-! ## Pass 2: how far an index can leave the bin budget -/

theorem dsub_i2d_mono (mean : ℚ) {d e : Int} (h : d ≤ e) :
    dsub (i2d d) mean ≤ dsub (i2d e) mean := by
  unfold dsub i2d
  apply fl_mono
  have : fl (d : ℚ) ≤ fl (e : ℚ) := fl_mono (by exact_mod_cast h)
  linarith

theorem bin_raw_bounds_of_quot (P : Platform) (mean : ℚ) (g d : Int)
    (h : |bin_quot mean g d| < 2001) :
    -1 ≤ bin_raw P mean g d ∧ bin_raw P mean g d ≤ 4001 := by
  obtain ⟨h1, h2⟩ := abs_lt.mp h
  have u : dadd (bin_quot mean g d) (1 / 2) ≤ ((4003 : Int) : ℚ) / 2 := by
    apply fl_le_of_le (isRep_half 4003 (by norm_num))
    push_cast
    linarith
  have l : ((-4001 : Int) : ℚ) / 2 ≤ dadd (bin_quot mean g d) (1 / 2) := by
    apply le_fl_of_le (isRep_half (-4001) (by norm_num))
    push_cast
    linarith
  have fu : ⌊dadd (bin_quot mean g d) (1 / 2)⌋ < 2002 := by
    rw [Int.floor_lt]
    push_cast at u ⊢
    linarith
  have fl0 : -2001 ≤ ⌊dadd (bin_quot mean g d) (1 / 2)⌋ := by
    rw [Int.le_floor]
    push_cast at l ⊢
    linarith
  rw [bin_raw_eq P mean g d (by omega) (by omega)]
  constructor <;> omega

/-- C7, amended: when the exact `range = max(|min - mean|, |max - mean|)` of the stored
values is below `2^31`, the index computed in pass 2 for every interval of the series
lies in `[-1, HIST_BINS + 1]` before the clamp: the chosen width keeps every interval
within one bin below and two bins above the bin budget, and the clamp still acts. -/
theorem index_near_bin_budget (P : Platform) (data : List Timespec)
    (hist : Nat → Int) (is0 : interval_stat)
    (h : max |dsub (i2d (calc_interval_stats P data hist is0).1.min)
            (calc_interval_stats P data hist is0).1.mean_us|
          |dsub (i2d (calc_interval_stats P data hist is0).1.max)
            (calc_interval_stats P data hist is0).1.mean_us| < 2147483648) :
    ∀ d ∈ intervals P data,
      -1 ≤ bin_raw P (calc_interval_stats P data hist is0).1.mean_us
          (calc_interval_stats P data hist is0).1.bin_granularity d ∧
      bin_raw P (calc_interval_stats P data hist is0).1.mean_us
          (calc_interval_stats P data hist is0).1.bin_granularity d
        ≤ (HIST_BINS : Int) + 1 := by
  intro d hd
  obtain ⟨hmn, hmx⟩ := stored_min_le_max_ge P data hist is0 d hd
  have hb := bin_range_bounds P (calc_interval_stats P data hist is0).1.min
    (calc_interval_stats P data hist is0).1.max (calc_interval_stats P data hist is0).1.mean_us
  have hg := calc_granularity P data hist is0
  rw [bin_width_eq P _ hb.2, bin_range_eq P _ _ _ h] at hg
  generalize (calc_interval_stats P data hist is0).1.min = mn at *
  generalize (calc_interval_stats P data hist is0).1.max = mx at *
  generalize (calc_interval_stats P data hist is0).1.mean_us = m at *
  generalize (calc_interval_stats P data hist is0).1.bin_granularity = g at *
  have ylo := dsub_i2d_mono m hmn
  have yhi := dsub_i2d_mono m hmx
  have hρ0 : 0 ≤ max |dsub (i2d mn) m| |dsub (i2d mx) m| :=
    le_max_of_le_left (abs_nonneg _)
  have hy : |dsub (i2d d) m| ≤ max |dsub (i2d mn) m| |dsub (i2d mx) m| := by
    rw [abs_le]
    constructor
    · have := neg_abs_le (dsub (i2d mn) m)
      have := le_max_left |dsub (i2d mn) m| |dsub (i2d mx) m|
      linarith
    · have := le_abs_self (dsub (i2d mx) m)
      have := le_max_right |dsub (i2d mn) m| |dsub (i2d mx) m|
      linarith
  have hR : qtrunc (max |dsub (i2d mn) m| |dsub (i2d mx) m|)
      = ⌊max |dsub (i2d mn) m| |dsub (i2d mx) m|⌋ := qtrunc_of_nonneg hρ0
  rw [hR] at hg
  have hfl := Int.lt_floor_add_one (max |dsub (i2d mn) m| |dsub (i2d mx) m|)
  have hR0 : 0 ≤ ⌊max |dsub (i2d mn) m| |dsub (i2d mx) m|⌋ := Int.floor_nonneg.mpr hρ0
  have hR1 : ⌊max |dsub (i2d mn) m| |dsub (i2d mx) m|⌋ < 2147483648 := by
    rw [Int.floor_lt]
    exact_mod_cast h
  generalize max |dsub (i2d mn) m| |dsub (i2d mx) m| = ρ at *
  generalize ⌊ρ⌋ = R at *
  have hq : |bin_quot m g d| < 2001 := by
    unfold bin_quot ddiv
    by_cases hc : R ≤ 2000
    · rw [if_pos hc] at hg
      have hRq : (R : ℚ) ≤ 2000 := by exact_mod_cast hc
      rw [hg, i2d_small 1 (by norm_num)]
      have e1 : dsub (i2d d) m / ((1 : Int) : ℚ) = dsub (i2d d) m := by simp
      have e2 : fl (dsub (i2d d) m) = dsub (i2d d) m := by
        unfold dsub
        exact fl_idem _
      rw [e1, e2]
      linarith
    · rw [if_neg hc] at hg
      have hG1 : 2 ≤ g := by omega
      have hG2 : g ≤ 1073742 := by omega
      have hG3 : R + 1 ≤ 2000 * g + 1 := by omega
      have hGq : (2 : ℚ) ≤ (g : ℚ) := by exact_mod_cast hG1
      have hG3q : (R : ℚ) + 1 ≤ 2000 * (g : ℚ) + 1 := by exact_mod_cast hG3
      have hgpos : (0 : ℚ) < (g : ℚ) := by linarith
      rw [i2d_small g (by rw [abs_lt]; constructor <;> omega)]
      obtain ⟨y1, y2⟩ := abs_le.mp hy
      have u : fl (dsub (i2d d) m / (g : ℚ)) ≤ ((4001 : Int) : ℚ) / 2 := by
        apply fl_le_of_le (isRep_half 4001 (by norm_num))
        rw [div_le_iff₀ hgpos]
        push_cast
        linarith
      have l : ((-4001 : Int) : ℚ) / 2 ≤ fl (dsub (i2d d) m / (g : ℚ)) := by
        apply le_fl_of_le (isRep_half (-4001) (by norm_num))
        rw [le_div_iff₀ hgpos]
        push_cast
        linarith
      rw [abs_lt]
      push_cast at u l
      constructor <;> linarith
  have := bin_raw_bounds_of_quot P m g d hq
  simp only [HIST_BINS]
  constructor
  · exact this.1
  · have := this.2
    push_cast
    omega

/-- An instance: the timestamps 0, 4001 ns and the interval 4001. -/
theorem index_near_bin_budget_witness :
    -1 ≤ bin_raw x86_64 (calc_interval_stats x86_64 [ns 0, ns 4001] zeroHist zeroStat).1.mean_us
        (calc_interval_stats x86_64 [ns 0, ns 4001] zeroHist zeroStat).1.bin_granularity 4001 ∧
    bin_raw x86_64 (calc_interval_stats x86_64 [ns 0, ns 4001] zeroHist zeroStat).1.mean_us
        (calc_interval_stats x86_64 [ns 0, ns 4001] zeroHist zeroStat).1.bin_granularity 4001
      ≤ (HIST_BINS : Int) + 1 :=
  index_near_bin_budget x86_64 [ns 0, ns 4001] zeroHist zeroStat (by decide!) 4001
    (by decide!)

end TaBench
